import Mathlib

/-!
Verification of `m18/rx` (package `rx`, file `rx.go`)

`rx` is a thin result-shaping layer over Go's `regexp` package.  The engine
is not part of the repository, so a compiled pattern is embedded as a record
of the engine answers the code consults (`Regexp` below); what the code does
with these answers is translated function by function.

Conventions of the embedding

* a Go `string` is its sequence of bytes (`GoString`); `len` is the number of
  bytes and `s[lo:hi]` slices bytes;
* a Go `map[string]string` is an association list with at most one entry per
  key (`GoMap`); `m[k] = v` is `GoMap.set`; a `nil` map or slice that is
  *returned* is `none`;
* a run-time panic (index out of range, slice bounds out of range) is
  `Except.error`;
* the callback handed to `ReplaceAllGroupsFunc` is a pure function; the maps
  it is invoked with are recorded, in call order, next to the result.
-/

namespace Rx

/-! ## Go values -/

/-- Go `string`: an immutable sequence of bytes. -/
abbrev GoString := List UInt8

/-- Bytes of a string literal (Go source text is UTF-8). -/
def str (x : String) : GoString := x.toUTF8.data.toList

/-- Run-time panics the code can raise. -/
inductive Panic where
  | indexOutOfRange
  | sliceBounds
  deriving DecidableEq, Repr

deriving instance DecidableEq for Except

/-- Go `l[i]` for a `range`/counter index `i ≥ 0`. -/
def index {α : Type} (l : List α) (i : Nat) : Except Panic α :=
  match l[i]? with
  | some x => .ok x
  | none => .error .indexOutOfRange

/-- Go `l[lo:]` with a constant, non-negative `lo`. -/
def sliceFrom {α : Type} (l : List α) (lo : Nat) : Except Panic (List α) :=
  if lo ≤ l.length then .ok (l.drop lo) else .error .sliceBounds

/-- Go `s[lo:hi]` on a string, with `int` bounds. -/
def slice (s : GoString) (lo hi : Int) : Except Panic GoString :=
  if 0 ≤ lo ∧ lo ≤ hi ∧ hi ≤ (s.length : Int) then
    .ok ((s.drop lo.toNat).take (hi.toNat - lo.toNat))
  else .error .sliceBounds

/-- Go `s[lo:]` on a string, with an `int` bound. -/
def sliceTail (s : GoString) (lo : Int) : Except Panic GoString :=
  if 0 ≤ lo ∧ lo ≤ (s.length : Int) then .ok (s.drop lo.toNat) else .error .sliceBounds

/-- Decimal digits of a natural number, most significant first
(`fuel` bounds the number of digits). -/
def decimalDigits : Nat → Nat → GoString → GoString
  | 0, _, acc => acc
  | fuel + 1, n, acc =>
    let acc1 := UInt8.ofNat (48 + n % 10) :: acc
    if n / 10 = 0 then acc1 else decimalDigits fuel (n / 10) acc1

/-- Go `strconv.Itoa`: the base-10 text of an `int`. -/
def Itoa : Int → GoString
  | .ofNat n => decimalDigits (n + 1) n []
  | .negSucc n => 45 :: decimalDigits (n + 2) (n + 1) []

/-- Go `map[string]string`: association list, at most one entry per key. -/
abbrev GoMap := List (GoString × GoString)

namespace GoMap

/-- Go `m[k] = v`: overwrite the entry of `k`, or add one. -/
def set : GoMap → GoString → GoString → GoMap
  | [], k, v => [(k, v)]
  | (k1, v1) :: m, k, v => if k1 = k then (k1, v) :: m else (k1, v1) :: set m k v

/-- Go `v, ok := m[k]`. -/
def lookup : GoMap → GoString → Option GoString
  | [], _ => none
  | (k1, v1) :: m, k => if k1 = k then some v1 else lookup m k

/-- Go `m[k]`: the zero value `""` when `k` is absent. -/
def get (m : GoMap) (k : GoString) : GoString := (lookup m k).getD []

/-- Keys of a map. -/
def keys (m : GoMap) : List GoString := m.map Prod.fst

/-- Go `len(m)`. -/
def len (m : GoMap) : Nat := m.length

end GoMap

/-! ## The engine -/

/-- What `rx` asks of a compiled `*regexp.Regexp`.  Slices the code only
ranges over, indexes or re-slices are lists (`nil` is `[]`); the slice that
`FindAllMatches` hands back unchanged keeps its `nil`. -/
structure Regexp where
  /-- Go `r.MatchString(s)`. -/
  MatchString : GoString → Bool
  /-- Go `r.SubexpNames()`; entry 0 stands for the whole match. -/
  SubexpNames : List GoString
  /-- Go `r.FindAllStringSubmatch(s, -1)`. -/
  FindAllStringSubmatch : GoString → List (List GoString)
  /-- Go `r.FindStringSubmatch(s)`. -/
  FindStringSubmatch : GoString → List GoString
  /-- Go `r.FindAllString(s, -1)`. -/
  FindAllString : GoString → Option (List GoString)
  /-- Go `r.FindString(s)`. -/
  FindString : GoString → GoString
  /-- Go `r.FindAllSubmatchIndex([]byte(s), -1)`. -/
  FindAllSubmatchIndex : GoString → List (List Int)

/-! ## `rx.go` -/

/-- Source `getGroupName` (rx.go:93-99). -/
def getGroupName (groupNames : List GoString) (idx : Nat) : Except Panic GoString := do
  let res ← index groupNames idx
  if res.length = 0 then .ok (Itoa ((idx : Int) + 1)) else .ok res

/-- Loop of `FindGroups` (rx.go:43-46): `for i, v := range ...[1:]`, entered
at counter `i` with the entries still to visit. -/
def FindGroups.loop (groupNames : List GoString) :
    Nat → List GoString → GoMap → Except Panic GoMap
  | _, [], res => .ok res
  | i, v :: vs, res => do
    let groupName ← getGroupName groupNames i
    FindGroups.loop groupNames (i + 1) vs (res.set groupName v)

/-- Source `FindGroups` (rx.go:34-48). -/
def FindGroups (r : Regexp) (s : GoString) : Except Panic (Option GoMap × Bool) := do
  if !r.MatchString s then
    return (none, false)
  let groupNames ← sliceFrom r.SubexpNames 1
  if groupNames.length = 0 then
    return (none, true)
  let vs ← sliceFrom (r.FindStringSubmatch s) 1
  let res ← FindGroups.loop groupNames 0 vs []
  return (some res, true)

/-- Inner loop of `FindAllGroups` (rx.go:22-25). -/
def FindAllGroups.inner (groupNames : List GoString) :
    Nat → List GoString → GoMap → Except Panic GoMap
  | _, [], m => .ok m
  | i, v :: vs, m => do
    let groupName ← getGroupName groupNames i
    FindAllGroups.inner groupNames (i + 1) vs (m.set groupName v)

/-- Go `append(res, m)` on a possibly `nil` slice. -/
def goAppend {α : Type} (res : Option (List α)) (m : α) : Option (List α) :=
  some (res.getD [] ++ [m])

/-- Outer loop of `FindAllGroups` (rx.go:20-27). -/
def FindAllGroups.outer (groupNames : List GoString) :
    List (List GoString) → Option (List GoMap) → Except Panic (Option (List GoMap))
  | [], res => .ok res
  | matchGroups :: rest, res => do
    let vs ← sliceFrom matchGroups 1
    let m ← FindAllGroups.inner groupNames 0 vs []
    FindAllGroups.outer groupNames rest (goAppend res m)

/-- Source `FindAllGroups` (rx.go:11-29). -/
def FindAllGroups (r : Regexp) (s : GoString) :
    Except Panic (Option (List GoMap) × Bool) := do
  if !r.MatchString s then
    return (none, false)
  let groupNames ← sliceFrom r.SubexpNames 1
  if groupNames.length = 0 then
    return (none, true)
  let res ← FindAllGroups.outer groupNames (r.FindAllStringSubmatch s) none
  return (res, true)

/-- Source `FindAllMatches` (rx.go:51-56). -/
def FindAllMatches (r : Regexp) (s : GoString) : Option (List GoString) × Bool :=
  if !r.MatchString s then (none, false) else (r.FindAllString s, true)

/-- Source `FindMatch` (rx.go:59-64). -/
def FindMatch (r : Regexp) (s : GoString) : GoString × Bool :=
  if !r.MatchString s then ([], false) else (r.FindString s, true)

/-- Group loop of `ReplaceAllGroupsFunc` (rx.go:77-85), entered with
`groupIdx = (i - 2) / 2` and the entries `idxs[i:]` still to visit.  The
condition `idxs[i] == -1 || idxs[i+1] == -1` short-circuits, so `idxs[i+1]`
is only read when `idxs[i]` is not `-1`. -/
def ReplaceAllGroupsFunc.groups (s : GoString) (groupNames : List GoString) :
    Nat → List Int → GoMap → Except Panic GoMap
  | _, [], groups => .ok groups
  | groupIdx, [p], groups => do
    let groupName ← getGroupName groupNames groupIdx
    if p = -1 then .ok (groups.set groupName []) else .error .indexOutOfRange
  | groupIdx, p :: q :: rest, groups => do
    let groupName ← getGroupName groupNames groupIdx
    if p = -1 ∨ q = -1 then
      ReplaceAllGroupsFunc.groups s groupNames (groupIdx + 1) rest (groups.set groupName [])
    else do
      let v ← slice s p q
      ReplaceAllGroupsFunc.groups s groupNames (groupIdx + 1) rest (groups.set groupName v)

/-- State of the match loop of `ReplaceAllGroupsFunc`: the two locals and the
maps the callback has been invoked with so far. -/
structure ReplaceState where
  res : GoString
  lastIdx : Int
  calls : List GoMap
  deriving DecidableEq

/-- Match loop of `ReplaceAllGroupsFunc` (rx.go:75-88). -/
def ReplaceAllGroupsFunc.loop (s : GoString) (groupNames : List GoString)
    (replace : GoMap → GoString) :
    List (List Int) → ReplaceState → Except Panic ReplaceState
  | [], st => .ok st
  | idxs :: rest, st => do
    let groups ← ReplaceAllGroupsFunc.groups s groupNames 0 (idxs.drop 2) []
    let a ← index idxs 0
    let pre ← slice s st.lastIdx a
    let b ← index idxs 1
    ReplaceAllGroupsFunc.loop s groupNames replace rest
      { res := st.res ++ (pre ++ replace groups), lastIdx := b, calls := st.calls ++ [groups] }

/-- Source `ReplaceAllGroupsFunc` (rx.go:67-91), together with the maps the
callback was invoked with; `replace = none` is the `nil` function. -/
def ReplaceAllGroupsFunc.run (r : Regexp) (s : GoString)
    (replace : Option (GoMap → GoString)) : Except Panic (GoString × List GoMap) :=
  if !r.MatchString s then .ok (s, [])
  else
    match replace with
    | none => .ok (s, [])
    | some f => do
      let groupNames ← sliceFrom r.SubexpNames 1
      let st ← ReplaceAllGroupsFunc.loop s groupNames f (r.FindAllSubmatchIndex s)
        { res := [], lastIdx := 0, calls := [] }
      let tail ← sliceTail s st.lastIdx
      return (st.res ++ tail, st.calls)

/-- Source `ReplaceAllGroupsFunc` (rx.go:67-91): the returned string. -/
def ReplaceAllGroupsFunc (r : Regexp) (s : GoString)
    (replace : Option (GoMap → GoString)) : Except Panic GoString :=
  (ReplaceAllGroupsFunc.run r s replace).map Prod.fst

/-- The maps `ReplaceAllGroupsFunc` passes to the callback, in call order. -/
def ReplaceAllGroupsFunc.calls (r : Regexp) (s : GoString)
    (replace : Option (GoMap → GoString)) : Except Panic (List GoMap) :=
  (ReplaceAllGroupsFunc.run r s replace).map Prod.snd

/-! ## Engine contract and specification-side definitions -/

/-- Group entries `idxs[2:]` of one reported match, as Go's `regexp` reports
them for a pattern with `n` declared groups: `n` pairs, each either unset
(an entry `-1`) or a span inside the subject. -/
def groupSpansOK (s : GoString) : Nat → List Int → Bool
  | 0, [] => true
  | n + 1, p :: q :: rest =>
    (decide (p = -1 ∨ q = -1) || decide (0 ≤ p ∧ p ≤ q ∧ q ≤ (s.length : Int)))
      && groupSpansOK s n rest
  | _, _ => false

/-- Overall spans `[a_1, b_1), ..., [a_k, b_k)` with
`last ≤ a_1 ≤ b_1 ≤ a_2 ≤ ... ≤ b_k ≤ n`. -/
def spansOrdered (n : Nat) : Nat → List (Nat × Nat) → Bool
  | last, [] => decide (last ≤ n)
  | last, (a, b) :: rest => decide (last ≤ a) && decide (a ≤ b) && spansOrdered n b rest

/-- A reported match `(a, b, g)` as the `[]int` the engine hands over:
overall span first, then the group entries. -/
def spanList (m : Nat × Nat × List Int) : List Int := (m.1 : Int) :: (m.2.1 : Int) :: m.2.2

/-- Spec §4.4, the spliced text: with `last` the end of the previous span,
`s[last:a_1] + rep_1 + s[b_1:a_2] + ... + rep_k + s[b_k:]`. -/
def spliced (s : GoString) : Nat → List (Nat × Nat × GoString) → GoString
  | last, [] => s.drop last
  | last, (a, b, rep) :: rest => (s.drop last).take (a - last) ++ rep ++ spliced s b rest

/-- Spec §3 `GroupIdentifier`, for the groups declared from position `i` on:
the declared name, or the decimal text of the 1-based position. -/
def identifiersFrom : Nat → List GoString → List GoString
  | _, [] => []
  | i, name :: rest =>
    (if name = [] then Itoa ((i : Int) + 1) else name) :: identifiersFrom (i + 1) rest

/-- Resolved identifiers of all declared groups, in declaration order. -/
def identifiers (groupNames : List GoString) : List GoString := identifiersFrom 0 groupNames

/-- Successive assignments `m[k] = v`. -/
def GoMap.setAll (m : GoMap) (kvs : List (GoString × GoString)) : GoMap :=
  kvs.foldl (fun acc kv => acc.set kv.1 kv.2) m

/-- Captured text of the group entries `idxs[2:]`: `""` for an unset pair,
`s[p:q]` otherwise. -/
def groupValues (s : GoString) : List Int → List GoString
  | p :: q :: rest =>
    (if p = -1 ∨ q = -1 then [] else (s.drop p.toNat).take (q.toNat - p.toNat))
      :: groupValues s rest
  | _ => []

/-- Value of a decimal text (`none` when a byte is not a digit). -/
def decimalValue (t : GoString) : Option Nat :=
  if t = [] then none
  else t.foldlM
    (fun acc c => if 48 ≤ c.toNat ∧ c.toNat ≤ 57 then some (10 * acc + (c.toNat - 48)) else none) 0

/-- A pattern and subject used to instantiate the statements below: the
pattern `(?P<greeting>\w+),\s*(?P<name>\w+)!` of the repository's tests
on the subject `"pre hello, world! post"`. -/
def regularx : Regexp where
  MatchString := fun s => s = str "pre hello, world! post"
  SubexpNames := [[], str "greeting", str "name"]
  FindAllStringSubmatch := fun s =>
    if s = str "pre hello, world! post" then [[str "hello, world!", str "hello", str "world"]] else []
  FindStringSubmatch := fun s =>
    if s = str "pre hello, world! post" then [str "hello, world!", str "hello", str "world"] else []
  FindAllString := fun s =>
    if s = str "pre hello, world! post" then some [str "hello, world!"] else none
  FindString := fun s => if s = str "pre hello, world! post" then str "hello, world!" else []
  FindAllSubmatchIndex := fun s =>
    if s = str "pre hello, world! post" then [[4, 17, 4, 9, 11, 16]] else []

/-- The pattern `(?P<greeting>\w+,\s*(?P<name>\w+)!)` of the repository's
tests (its first group wraps the whole match) on the subject
`"hello, world! hi, cosmos!"`. -/
def nestedrx : Regexp where
  MatchString := fun s => s = str "hello, world! hi, cosmos!"
  SubexpNames := [[], str "greeting", str "name"]
  FindAllStringSubmatch := fun s =>
    if s = str "hello, world! hi, cosmos!" then
      [[str "hello, world!", str "hello, world!", str "world"],
       [str "hi, cosmos!", str "hi, cosmos!", str "cosmos"]]
    else []
  FindStringSubmatch := fun s =>
    if s = str "hello, world! hi, cosmos!" then
      [str "hello, world!", str "hello, world!", str "world"]
    else []
  FindAllString := fun s =>
    if s = str "hello, world! hi, cosmos!" then some [str "hello, world!", str "hi, cosmos!"]
    else none
  FindString := fun s =>
    if s = str "hello, world! hi, cosmos!" then str "hello, world!" else []
  FindAllSubmatchIndex := fun s =>
    if s = str "hello, world! hi, cosmos!" then
      [[0, 13, 0, 13, 7, 12], [14, 25, 14, 25, 18, 24]]
    else []

/-- The pattern `(?P<bob>a+)(?P<bob>b+)` (the example of two groups with one
name in the documentation of Go's `regexp.SubexpIndex`) on the subject `"ab"`. -/
def bobrx : Regexp where
  MatchString := fun s => s = str "ab"
  SubexpNames := [[], str "bob", str "bob"]
  FindAllStringSubmatch := fun s => if s = str "ab" then [[str "ab", str "a", str "b"]] else []
  FindStringSubmatch := fun s => if s = str "ab" then [str "ab", str "a", str "b"] else []
  FindAllString := fun s => if s = str "ab" then some [str "ab"] else none
  FindString := fun s => if s = str "ab" then str "ab" else []
  FindAllSubmatchIndex := fun s => if s = str "ab" then [[0, 2, 0, 1, 1, 2]] else []

/-- The pattern `(\w+),\s*(?P<1>\w+)!` (Go accepts group names that start
with a digit) on the subject `"hello, world!"`: the unnamed first group and
the group named `1` both resolve to the identifier `"1"`. -/
def digitrx : Regexp where
  MatchString := fun s => s = str "hello, world!"
  SubexpNames := [[], [], str "1"]
  FindAllStringSubmatch := fun s =>
    if s = str "hello, world!" then [[str "hello, world!", str "hello", str "world"]] else []
  FindStringSubmatch := fun s =>
    if s = str "hello, world!" then [str "hello, world!", str "hello", str "world"] else []
  FindAllString := fun s => if s = str "hello, world!" then some [str "hello, world!"] else none
  FindString := fun s => if s = str "hello, world!" then str "hello, world!" else []
  FindAllSubmatchIndex := fun s =>
    if s = str "hello, world!" then [[0, 13, 0, 5, 7, 12]] else []

/-- The pattern `\w+,\s*\w+!` of the repository's tests (no groups) on the
subject `"hello, world!"`. -/
def simplerx : Regexp where
  MatchString := fun s => s = str "hello, world!"
  SubexpNames := [[]]
  FindAllStringSubmatch := fun s =>
    if s = str "hello, world!" then [[str "hello, world!"]] else []
  FindStringSubmatch := fun s => if s = str "hello, world!" then [str "hello, world!"] else []
  FindAllString := fun s => if s = str "hello, world!" then some [str "hello, world!"] else none
  FindString := fun s => if s = str "hello, world!" then str "hello, world!" else []
  FindAllSubmatchIndex := fun s => if s = str "hello, world!" then [[0, 13]] else []

/-- The pattern `(?P<bob>a)|(?P<bob>b)` (two groups with one name, one per
alternation branch) on the subject `"b"`: the first group does not
participate in the match. -/
def altrx : Regexp where
  MatchString := fun s => s = str "b"
  SubexpNames := [[], str "bob", str "bob"]
  FindAllStringSubmatch := fun s => if s = str "b" then [[str "b", [], str "b"]] else []
  FindStringSubmatch := fun s => if s = str "b" then [str "b", [], str "b"] else []
  FindAllString := fun s => if s = str "b" then some [str "b"] else none
  FindString := fun s => if s = str "b" then str "b" else []
  FindAllSubmatchIndex := fun s => if s = str "b" then [[0, 1, -1, -1, 0, 1]] else []

/-- The pattern `(?P<x>a)|(?P<y>b)` on the subject `"b"`: the group `x` does
not participate in the match. -/
def optrx : Regexp where
  MatchString := fun s => s = str "b"
  SubexpNames := [[], str "x", str "y"]
  FindAllStringSubmatch := fun s => if s = str "b" then [[str "b", [], str "b"]] else []
  FindStringSubmatch := fun s => if s = str "b" then [str "b", [], str "b"] else []
  FindAllString := fun s => if s = str "b" then some [str "b"] else none
  FindString := fun s => if s = str "b" then str "b" else []
  FindAllSubmatchIndex := fun s => if s = str "b" then [[0, 1, -1, -1, 0, 1]] else []

/-- String-level submatches that agree with the span-level entries `idxs` of
one match (Go's `regexp` derives them so): for each pair `(p, q)`, overall
span first, the text `s[p:q]`, or `""` when `p` is negative. -/
def submatchTexts (s : GoString) : List Int → List GoString
  | p :: q :: rest =>
    (if 0 ≤ p then (s.drop p.toNat).take (q.toNat - p.toNat) else [])
      :: submatchTexts s rest
  | _ => []

/-- The pattern `(?P<greeting>\w+),\s*(\w+)(!)` of the repository's tests
(one named and two unnamed groups) on the subject `"hello, world!"`. -/
def nonamerx : Regexp where
  MatchString := fun s => s = str "hello, world!"
  SubexpNames := [[], str "greeting", [], []]
  FindAllStringSubmatch := fun s =>
    if s = str "hello, world!" then [[str "hello, world!", str "hello", str "world", str "!"]]
    else []
  FindStringSubmatch := fun s =>
    if s = str "hello, world!" then [str "hello, world!", str "hello", str "world", str "!"]
    else []
  FindAllString := fun s => if s = str "hello, world!" then some [str "hello, world!"] else none
  FindString := fun s => if s = str "hello, world!" then str "hello, world!" else []
  FindAllSubmatchIndex := fun s =>
    if s = str "hello, world!" then [[0, 13, 0, 5, 7, 12, 12, 13]] else []

/-- The callback of the repository's tests: `m["name"] + ", " + m["greeting"] + "."`. -/
def replaceNameGreeting (m : GoMap) : GoString :=
  m.get (str "name") ++ str ", " ++ m.get (str "greeting") ++ str "."

/-! ## Basic lemmas -/

/-- Scenario 6 of the specification (test "non-matches"). -/
theorem test_ReplaceAllGroupsFunc_non_matches :
    ReplaceAllGroupsFunc regularx (str "pre hello, world! post") (some replaceNameGreeting)
      = .ok (str "pre world, hello. post") := by
  decide

/-- Test "nested groups, multiple matches" of `TestReplaceAllGroupsFunc`. -/
theorem test_ReplaceAllGroupsFunc_nested :
    ReplaceAllGroupsFunc nestedrx (str "hello, world! hi, cosmos!") (some replaceNameGreeting)
      = .ok (str "world, hello, world!. cosmos, hi, cosmos!.") := by
  decide

/-- Test "no groups" of `TestReplaceAllGroupsFunc`. -/
theorem test_ReplaceAllGroupsFunc_no_groups :
    ReplaceAllGroupsFunc simplerx (str "hello, world!") (some replaceNameGreeting)
      = .ok (str ", .") := by
  decide

/-- Test "nested groups, multiple matches" of `TestFindAllGroups`. -/
theorem test_FindAllGroups_nested :
    FindAllGroups nestedrx (str "hello, world! hi, cosmos!")
      = .ok (some [[(str "greeting", str "hello, world!"), (str "name", str "world")],
                   [(str "greeting", str "hi, cosmos!"), (str "name", str "cosmos")]], true) := by
  rfl

/-- An unset group span yields `""` under the group's identifier. -/
theorem test_ReplaceAllGroupsFunc_unset_group :
    ReplaceAllGroupsFunc.calls optrx (str "b") (some replaceNameGreeting)
      = .ok [[(str "x", []), (str "y", str "b")]] := by
  decide

theorem Itoa_examples : Itoa 123 = str "123" ∧ Itoa 0 = str "0" ∧ Itoa (-45) = str "-45" := by
  decide

@[simp] theorem ok_bind {α β : Type} (x : α) (f : α → Except Panic β) :
    (Except.ok x >>= f) = f x := rfl

@[simp] theorem error_bind {α β : Type} (e : Panic) (f : α → Except Panic β) :
    (Except.error e >>= f) = Except.error e := rfl

theorem index_eq_ok {α : Type} (l : List α) (i : Nat) (h : i < l.length) :
    index l i = .ok l[i] := by
  simp [index, List.getElem?_eq_getElem h]

theorem slice_eq_ok (s : GoString) (a b : Nat) (hab : a ≤ b) (hb : b ≤ s.length) :
    slice s (a : Int) (b : Int) = .ok ((s.drop a).take (b - a)) := by
  have h : (0 : Int) ≤ a ∧ (a : Int) ≤ b ∧ (b : Int) ≤ (s.length : Int) := by omega
  simp [slice, h]

theorem sliceTail_eq_ok (s : GoString) (a : Nat) (ha : a ≤ s.length) :
    sliceTail s (a : Int) = .ok (s.drop a) := by
  have h : (0 : Int) ≤ a ∧ (a : Int) ≤ (s.length : Int) := by omega
  simp [sliceTail, h]

theorem getGroupName_eq_ok (groupNames : List GoString) (idx : Nat)
    (h : idx < groupNames.length) :
    getGroupName groupNames idx =
      .ok (if groupNames[idx] = [] then Itoa ((idx : Int) + 1) else groupNames[idx]) := by
  unfold getGroupName
  rw [index_eq_ok groupNames idx h]
  simp only [ok_bind, List.length_eq_zero]
  split <;> rfl

theorem identifiersFrom_length (i : Nat) (names : List GoString) :
    (identifiersFrom i names).length = names.length := by
  induction names generalizing i with
  | nil => rfl
  | cons name rest ih => simp [identifiersFrom, ih]

theorem identifiersFrom_drop (names : List GoString) (i : Nat) (h : i < names.length) :
    identifiersFrom i (names.drop i) =
      (if names[i] = [] then Itoa ((i : Int) + 1) else names[i])
        :: identifiersFrom (i + 1) (names.drop (i + 1)) := by
  rw [List.drop_eq_getElem_cons h]
  rfl

/-- The group loop of `ReplaceAllGroupsFunc` assigns, in order, the captured
text of each reported group under its resolved identifier. -/
theorem groups_eq_setAll (s : GoString) (names : List GoString) :
    ∀ (n k : Nat) (g : List Int) (acc : GoMap),
      groupSpansOK s n g = true → k + n ≤ names.length →
      ReplaceAllGroupsFunc.groups s names k g acc =
        .ok (acc.setAll ((identifiersFrom k (names.drop k)).zip (groupValues s g))) := by
  intro n
  induction n with
  | zero =>
    intro k g acc hg _
    cases g with
    | nil => simp [ReplaceAllGroupsFunc.groups, groupValues, GoMap.setAll]
    | cons p rest => simp [groupSpansOK] at hg
  | succ n ih =>
    intro k g acc hg hk
    match g, hg with
    | [], hg => simp [groupSpansOK] at hg
    | [_], hg => simp [groupSpansOK] at hg
    | p :: q :: rest, hg =>
      have hlt : k < names.length := by omega
      simp only [groupSpansOK, Bool.and_eq_true, Bool.or_eq_true, decide_eq_true_eq] at hg
      obtain ⟨hpq, hrest⟩ := hg
      have hrec := fun acc1 => ih (k + 1) rest acc1 hrest (by omega)
      rw [ReplaceAllGroupsFunc.groups, getGroupName_eq_ok names k hlt,
        identifiersFrom_drop names k hlt]
      simp only [ok_bind, groupValues, List.zip_cons_cons, GoMap.setAll, List.foldl_cons]
      by_cases hu : p = -1 ∨ q = -1
      · simp only [hu, if_true]
        rw [hrec]
        rfl
      · simp only [hu, if_false]
        have hv : 0 ≤ p ∧ p ≤ q ∧ q ≤ (s.length : Int) := by
          rcases hpq with h | h
          · exact absurd h hu
          · exact h
        simp only [slice, hv, and_self, if_true, ok_bind]
        rw [hrec]
        rfl

theorem spansOrdered_le (n : Nat) :
    ∀ (spans : List (Nat × Nat)) (last : Nat), spansOrdered n last spans = true → last ≤ n := by
  intro spans
  induction spans with
  | nil =>
    intro last h
    simpa [spansOrdered] using h
  | cons sp rest ih =>
    intro last h
    obtain ⟨a, b⟩ := sp
    simp only [spansOrdered, Bool.and_eq_true, decide_eq_true_eq] at h
    have := ih b h.2
    omega

/-- The match loop of `ReplaceAllGroupsFunc`, from any intermediate state:
it succeeds, calls the callback once per match with that match's group map,
and its `res` followed by the subject's tail is the spliced text. -/
theorem loop_spliced (s : GoString) (names : List GoString) (f : GoMap → GoString) (n : Nat)
    (hn : n ≤ names.length) :
    ∀ (ms : List (Nat × Nat × List Int)) (res : GoString) (last : Nat) (calls : List GoMap),
      (∀ m ∈ ms, groupSpansOK s n m.2.2 = true) →
      spansOrdered s.length last (ms.map fun m => (m.1, m.2.1)) = true →
      ∃ (maps : List GoMap) (res1 : GoString) (e : Nat),
        List.Forall₂
          (fun m gm => ReplaceAllGroupsFunc.groups s names 0 m.2.2 [] = .ok gm) ms maps ∧
        ReplaceAllGroupsFunc.loop s names f (ms.map spanList) ⟨res, (last : Int), calls⟩
          = .ok ⟨res1, (e : Int), calls ++ maps⟩ ∧
        e ≤ s.length ∧
        res1 ++ s.drop e
          = res ++ spliced s last (List.zipWith (fun m gm => (m.1, m.2.1, f gm)) ms maps) := by
  intro ms
  induction ms with
  | nil =>
    intro res last calls _ hord
    refine ⟨[], res, last, List.Forall₂.nil, ?_, ?_, ?_⟩
    · simp [ReplaceAllGroupsFunc.loop]
    · simpa [spansOrdered] using hord
    · simp [spliced]
  | cons m rest ih =>
    intro res last calls hg hord
    obtain ⟨a, b, g⟩ := m
    simp only [List.map_cons, spansOrdered, Bool.and_eq_true, decide_eq_true_eq] at hord
    obtain ⟨⟨hla, hab⟩, hrest⟩ := hord
    have hb : b ≤ s.length := spansOrdered_le _ _ _ hrest
    have hgm := groups_eq_setAll s names n 0 g [] (hg (a, b, g) (List.mem_cons_self _ _))
      (by omega)
    obtain ⟨maps, res1, e, hmaps, hloop, he, hres⟩ :=
      ih (res ++ ((s.drop last).take (a - last) ++
            f (GoMap.setAll [] ((identifiersFrom 0 (names.drop 0)).zip (groupValues s g)))))
        b (calls ++ [GoMap.setAll [] ((identifiersFrom 0 (names.drop 0)).zip (groupValues s g))])
        (fun m hm => hg m (List.mem_cons_of_mem _ hm)) hrest
    refine ⟨_ :: maps, res1, e, List.Forall₂.cons hgm hmaps, ?_, he, ?_⟩
    · rw [List.map_cons, ReplaceAllGroupsFunc.loop]
      have hdrop : (spanList (a, b, g)).drop 2 = g := rfl
      have h0 : index (spanList (a, b, g)) 0 = .ok (a : Int) := by simp [index, spanList]
      have h1 : index (spanList (a, b, g)) 1 = .ok (b : Int) := by simp [index, spanList]
      rw [hdrop, hgm, h0, h1]
      simp only [ok_bind]
      rw [slice_eq_ok s last a hla (by omega)]
      simp only [ok_bind]
      rw [hloop]
      simp
    · rw [hres]
      simp [spliced, List.append_assoc]

theorem decimalDigits_ne_nil_of_acc (fuel : Nat) :
    ∀ (n : Nat) (acc : GoString), acc ≠ [] → decimalDigits fuel n acc ≠ [] := by
  induction fuel with
  | zero => intro n acc h; simpa [decimalDigits] using h
  | succ fuel ih =>
    intro n acc _
    rw [decimalDigits]
    split
    · simp
    · exact ih _ _ (by simp)

theorem decimalDigits_ne_nil (fuel n : Nat) (acc : GoString) :
    decimalDigits (fuel + 1) n acc ≠ [] := by
  rw [decimalDigits]
  split
  · simp
  · exact decimalDigits_ne_nil_of_acc _ _ _ (by simp)

theorem digit_toNat (n : Nat) : (UInt8.ofNat (48 + n % 10)).toNat = 48 + n % 10 := by
  have h : n % 10 < 10 := Nat.mod_lt _ (by decide)
  simp [UInt8.toNat, UInt8.ofNat, Fin.ofNat]
  omega

theorem decimalDigits_fold (fuel : Nat) :
    ∀ (n : Nat) (acc : GoString), n < fuel →
      (decimalDigits fuel n acc).foldlM
        (fun a c => if 48 ≤ c.toNat ∧ c.toNat ≤ 57 then some (10 * a + (c.toNat - 48)) else none) 0
      = acc.foldlM
        (fun a c => if 48 ≤ c.toNat ∧ c.toNat ≤ 57 then some (10 * a + (c.toNat - 48)) else none) n := by
  induction fuel with
  | zero => intro n acc h; omega
  | succ fuel ih =>
    intro n acc h
    have hd := digit_toNat n
    have hlt : n % 10 < 10 := Nat.mod_lt _ (by decide)
    rw [decimalDigits]
    split
    · rename_i h0
      have hn : n % 10 = n := by omega
      simp only [List.foldlM_cons, hd]
      have hc : 48 + n ≤ 57 := by omega
      simp [hc, hn]
    · rename_i h0
      rw [ih (n / 10) _ (by omega)]
      simp only [List.foldlM_cons, hd]
      have hc : 48 ≤ 48 + n % 10 ∧ 48 + n % 10 ≤ 57 := by omega
      have hv : 10 * (n / 10) + n % 10 = n := Nat.div_add_mod n 10
      simp [hc, hv]

/-- The text `Itoa` gives for a non-negative number has that number as its
decimal value. -/
theorem decimalValue_Itoa (n : Nat) : decimalValue (Itoa (n : Int)) = some n := by
  have h : Itoa (n : Int) = decimalDigits (n + 1) n [] := rfl
  rw [h, decimalValue, if_neg (decimalDigits_ne_nil n n []), decimalDigits_fold (n + 1) n [] (by omega)]
  rfl

theorem sliceFrom_one_eq_ok {α : Type} (l : List α) (n : Nat) (h : l.length = n + 1) :
    sliceFrom l 1 = .ok (l.drop 1) ∧ (l.drop 1).length = n := by
  constructor
  · have h1 : 1 ≤ l.length := by omega
    simp [sliceFrom, h1]
  · simp [h]

/-- Result and recorded calls of `ReplaceAllGroupsFunc` on a matching subject
with a non-nil callback, under the engine contract. -/
theorem run_spliced (r : Regexp) (s : GoString) (f : GoMap → GoString) (n : Nat)
    (ms : List (Nat × Nat × List Int))
    (hmatch : r.MatchString s = true)
    (hnames : r.SubexpNames.length = n + 1)
    (hms : r.FindAllSubmatchIndex s = ms.map spanList)
    (hgroups : ∀ m ∈ ms, groupSpansOK s n m.2.2 = true)
    (hord : spansOrdered s.length 0 (ms.map fun m => (m.1, m.2.1)) = true) :
    ∃ maps : List GoMap,
      List.Forall₂
        (fun m gm => ReplaceAllGroupsFunc.groups s (r.SubexpNames.drop 1) 0 m.2.2 [] = .ok gm)
        ms maps ∧
      ReplaceAllGroupsFunc.run r s (some f)
        = .ok (spliced s 0 (List.zipWith (fun m gm => (m.1, m.2.1, f gm)) ms maps), maps) := by
  obtain ⟨hsl, hlen⟩ := sliceFrom_one_eq_ok r.SubexpNames n hnames
  obtain ⟨maps, res1, e, hmaps, hloop, he, hres⟩ :=
    loop_spliced s (r.SubexpNames.drop 1) f n (by omega) ms [] 0 [] hgroups hord
  refine ⟨maps, hmaps, ?_⟩
  simp only [ReplaceAllGroupsFunc.run, hmatch, Bool.not_true, Bool.false_eq_true, if_false, hsl,
    ok_bind, hms]
  have hloop1 : ReplaceAllGroupsFunc.loop s (r.SubexpNames.drop 1) f (ms.map spanList)
      { res := [], lastIdx := 0, calls := [] } = .ok ⟨res1, (e : Int), maps⟩ := by
    simpa using hloop
  rw [hloop1]
  simp only [ok_bind]
  rw [sliceTail_eq_ok s e he]
  simp only [ok_bind, pure, Except.pure]
  rw [hres]
  rfl

theorem spliced_self (s : GoString) :
    ∀ (spans : List (Nat × Nat)) (last : Nat), spansOrdered s.length last spans = true →
      spliced s last (spans.map fun sp => (sp.1, sp.2, (s.drop sp.1).take (sp.2 - sp.1)))
        = s.drop last := by
  intro spans
  induction spans with
  | nil => intro last _; rfl
  | cons sp rest ih =>
    intro last h
    obtain ⟨a, b⟩ := sp
    simp only [spansOrdered, Bool.and_eq_true, decide_eq_true_eq] at h
    obtain ⟨⟨hla, hab⟩, hrest⟩ := h
    simp only [List.map_cons, spliced, ih b hrest]
    have h1 : (s.drop last).take (a - last) ++ (s.drop a).take (b - a) ++ s.drop b
        = s.drop last := by
      have e1 : s.drop a = (s.drop last).drop (a - last) := by
        rw [List.drop_drop]; congr 1; omega
      have e2 : s.drop b = (s.drop a).drop (b - a) := by
        rw [List.drop_drop]; congr 1; omega
      rw [List.append_assoc, e2, List.take_append_drop, e1, List.take_append_drop]
    exact h1

/-! ## Maps -/

theorem GoMap.keys_set (m : GoMap) (k v : GoString) :
    (m.set k v).keys = if k ∈ m.keys then m.keys else m.keys ++ [k] := by
  induction m with
  | nil => simp [GoMap.set, GoMap.keys]
  | cons kv m ih =>
    obtain ⟨k1, v1⟩ := kv
    by_cases h : k1 = k
    · simp [GoMap.set, GoMap.keys, h]
    · have h1 : ¬ k = k1 := fun e => h e.symm
      simp only [GoMap.keys] at ih
      simp only [GoMap.set, h, if_false, GoMap.keys, List.map_cons, List.mem_cons, h1, false_or,
        ih]
      split <;> simp

theorem GoMap.mem_keys_set (m : GoMap) (k v x : GoString) :
    x ∈ (m.set k v).keys ↔ x = k ∨ x ∈ m.keys := by
  rw [GoMap.keys_set]
  split
  · rename_i h
    constructor
    · exact Or.inr
    · rintro (rfl | h1)
      · exact h
      · exact h1
  · simp [or_comm]

theorem GoMap.nodup_keys_set (m : GoMap) (k v : GoString) (h : m.keys.Nodup) :
    (m.set k v).keys.Nodup := by
  rw [GoMap.keys_set]
  split
  · exact h
  · rename_i hk
    rw [List.nodup_append]
    refine ⟨h, List.nodup_singleton k, ?_⟩
    intro a ha hb
    simp only [List.mem_singleton] at hb
    subst hb
    exact hk ha

theorem GoMap.lookup_set (m : GoMap) (k v x : GoString) :
    (m.set k v).lookup x = if k = x then some v else m.lookup x := by
  induction m with
  | nil => simp [GoMap.set, GoMap.lookup]
  | cons kv m ih =>
    obtain ⟨k1, v1⟩ := kv
    by_cases h : k1 = k
    · subst h
      by_cases hx : k1 = x <;> simp [GoMap.set, GoMap.lookup, hx]
    · by_cases hx : k1 = x
      · have hkx : ¬ k = x := fun e => h (hx.trans e.symm)
        have hxk : ¬ x = k := fun e => hkx e.symm
        subst hx
        simp [GoMap.set, GoMap.lookup, hxk, hkx]
      · simp [GoMap.set, GoMap.lookup, h, hx, ih]

theorem GoMap.setAll_cons (m : GoMap) (kv : GoString × GoString)
    (kvs : List (GoString × GoString)) :
    m.setAll (kv :: kvs) = (m.set kv.1 kv.2).setAll kvs := rfl

theorem GoMap.mem_keys_setAll (kvs : List (GoString × GoString)) :
    ∀ (m : GoMap) (x : GoString),
      x ∈ (m.setAll kvs).keys ↔ x ∈ m.keys ∨ x ∈ kvs.map Prod.fst := by
  induction kvs with
  | nil => intro m x; simp [GoMap.setAll]
  | cons kv kvs ih =>
    intro m x
    rw [GoMap.setAll_cons, ih, GoMap.mem_keys_set]
    simp only [List.map_cons, List.mem_cons]
    tauto

theorem GoMap.nodup_keys_setAll (kvs : List (GoString × GoString)) :
    ∀ (m : GoMap), m.keys.Nodup → (m.setAll kvs).keys.Nodup := by
  induction kvs with
  | nil => intro m h; simpa [GoMap.setAll] using h
  | cons kv kvs ih =>
    intro m h
    rw [GoMap.setAll_cons]
    exact ih _ (GoMap.nodup_keys_set m kv.1 kv.2 h)

theorem GoMap.lookup_setAll_of_not_mem (kvs : List (GoString × GoString)) :
    ∀ (m : GoMap) (x : GoString), x ∉ kvs.map Prod.fst →
      (m.setAll kvs).lookup x = m.lookup x := by
  induction kvs with
  | nil => intro m x _; rfl
  | cons kv kvs ih =>
    intro m x hx
    simp only [List.map_cons, List.mem_cons, not_or] at hx
    rw [GoMap.setAll_cons, ih _ _ hx.2, GoMap.lookup_set]
    have h : ¬ kv.1 = x := fun e => hx.1 e.symm
    simp [h]

/-- After assigning the values `vs` under the keys `ids`, in order, the key
`ids[i]` holds `vs[i]` provided no later key equals it. -/
theorem GoMap.lookup_setAll_zip (ids : List GoString) :
    ∀ (vs : List GoString) (m : GoMap) (i : Nat) (hi : i < ids.length) (hv : i < vs.length),
      ids.length = vs.length →
      (∀ j (hj : j < ids.length), i < j → ids[j] ≠ ids[i]) →
      (m.setAll (ids.zip vs)).lookup ids[i] = some vs[i] := by
  induction ids with
  | nil => intro vs m i hi; simp at hi
  | cons id0 ids ih =>
    intro vs m i hi hv hlen hlast
    cases vs with
    | nil => simp at hv
    | cons v0 vs =>
      simp only [List.zip_cons_cons, GoMap.setAll_cons]
      cases i with
      | zero =>
        simp only [List.getElem_cons_zero]
        rw [GoMap.lookup_setAll_of_not_mem, GoMap.lookup_set]
        · simp
        · intro hmem
          have hlen1 : ids.length = vs.length := by simpa using hlen
          have hlen2 : ids.length ≤ vs.length := by omega
          rw [List.map_fst_zip _ _ hlen2] at hmem
          obtain ⟨j, hj, hjeq⟩ := List.getElem_of_mem hmem
          have := hlast (j + 1) (by simpa using hj) (by omega)
          simp only [List.getElem_cons_succ, List.getElem_cons_zero] at this
          exact this hjeq
      | succ i =>
        simp only [List.getElem_cons_succ]
        apply ih vs _ i (by simpa using hi) (by simpa using hv) (by simpa using hlen)
        intro j hj hij
        have := hlast (j + 1) (by simpa using hj) (by omega)
        simpa using this

/-- Number of entries after filling an empty map: one per distinct key. -/
theorem GoMap.len_setAll_zip (ids vs : List GoString) (hlen : ids.length = vs.length) :
    (GoMap.setAll [] (ids.zip vs)).len = ids.toFinset.card := by
  have hnd : (GoMap.setAll [] (ids.zip vs)).keys.Nodup :=
    GoMap.nodup_keys_setAll _ [] (by simp [GoMap.keys])
  have hset : (GoMap.setAll [] (ids.zip vs)).keys.toFinset = ids.toFinset := by
    ext x
    simp only [List.mem_toFinset, GoMap.mem_keys_setAll]
    rw [List.map_fst_zip _ _ (by omega)]
    simp [GoMap.keys]
  have hcard := List.toFinset_card_of_nodup hnd
  rw [hset] at hcard
  rw [hcard]
  simp [GoMap.len, GoMap.keys]

theorem GoMap.mem_keys_setAll_zip (ids vs : List GoString) (hlen : ids.length = vs.length)
    (x : GoString) : x ∈ (GoMap.setAll [] (ids.zip vs)).keys ↔ x ∈ ids := by
  rw [GoMap.mem_keys_setAll, List.map_fst_zip _ _ (by omega)]
  simp [GoMap.keys]

/-! ## Group maps -/

theorem identifiersFrom_getElem? (names : List GoString) :
    ∀ (k i : Nat), (identifiersFrom k names)[i]?
      = names[i]?.map fun name => if name = [] then Itoa (((k + i : Nat) : Int) + 1) else name := by
  induction names with
  | nil => intro k i; simp [identifiersFrom]
  | cons name rest ih =>
    intro k i
    cases i with
    | zero => simp [identifiersFrom]
    | succ i =>
      simp only [identifiersFrom, List.getElem?_cons_succ, ih]
      have e : k + 1 + i = k + (i + 1) := by omega
      rw [e]

/-- At an in-range index `getGroupName` returns the entry of `identifiers`. -/
theorem getGroupName_eq_identifiers (names : List GoString) (i : Nat) (h : i < names.length) :
    ∃ k, (identifiers names)[i]? = some k ∧ getGroupName names i = .ok k := by
  refine ⟨if names[i] = [] then Itoa ((i : Int) + 1) else names[i], ?_, ?_⟩
  · rw [identifiers, identifiersFrom_getElem?, List.getElem?_eq_getElem h]
    simp
  · exact getGroupName_eq_ok names i h

theorem mem_identifiers (names : List GoString) (x : GoString) :
    x ∈ identifiers names ↔ ∃ i, i < names.length ∧ getGroupName names i = .ok x := by
  constructor
  · intro hx
    obtain ⟨i, hi, hxi⟩ := List.getElem_of_mem hx
    have hlen : i < names.length := by
      rw [identifiers, identifiersFrom_length] at hi
      exact hi
    obtain ⟨k, hk, hg⟩ := getGroupName_eq_identifiers names i hlen
    rw [List.getElem?_eq_getElem hi, hxi] at hk
    cases hk
    exact ⟨i, hlen, hg⟩
  · rintro ⟨i, hi, hg⟩
    obtain ⟨k, hk, hg1⟩ := getGroupName_eq_identifiers names i hi
    rw [hg] at hg1
    cases hg1
    exact List.getElem?_mem hk

/-- The loop of `FindGroups` assigns each capture under its resolved identifier. -/
theorem FindGroups_loop_eq (names : List GoString) :
    ∀ (vs : List GoString) (i : Nat) (res : GoMap), i + vs.length ≤ names.length →
      FindGroups.loop names i vs res
        = .ok (res.setAll ((identifiersFrom i (names.drop i)).zip vs)) := by
  intro vs
  induction vs with
  | nil => intro i res _; simp [FindGroups.loop, GoMap.setAll]
  | cons v vs ih =>
    intro i res h
    simp only [List.length_cons] at h
    have hlt : i < names.length := by omega
    rw [FindGroups.loop, getGroupName_eq_ok names i hlt, identifiersFrom_drop names i hlt]
    simp only [ok_bind, List.zip_cons_cons, GoMap.setAll_cons]
    exact ih (i + 1) _ (by omega)

/-- The inner loop of `FindAllGroups` is the loop of `FindGroups`. -/
theorem FindAllGroups_inner_eq_loop (names : List GoString) :
    ∀ (vs : List GoString) (i : Nat) (m : GoMap),
      FindAllGroups.inner names i vs m = FindGroups.loop names i vs m := by
  intro vs
  induction vs with
  | nil => intro i m; rfl
  | cons v vs ih =>
    intro i m
    rw [FindAllGroups.inner, FindGroups.loop]
    cases getGroupName names i with
    | error e => rfl
    | ok k => exact ih _ _

/-- The map `FindGroups` and `FindAllGroups` build from one match's
captures (whole match first), for a pattern with the declared names `names`. -/
theorem perMatch_eq (names : List GoString) (n : Nat) (hn : names.length = n)
    (mg : List GoString) (hmg : mg.length = n + 1) :
    (sliceFrom mg 1 >>= fun vs => FindGroups.loop names 0 vs [])
      = .ok (GoMap.setAll [] ((identifiers names).zip (mg.drop 1))) := by
  obtain ⟨hsl, hlen⟩ := sliceFrom_one_eq_ok mg n hmg
  rw [hsl]
  simp only [ok_bind]
  rw [FindGroups_loop_eq names _ 0 [] (by omega)]
  rfl

theorem FindGroups_eq (r : Regexp) (s : GoString) (n : Nat) (hn : 1 ≤ n)
    (hmatch : r.MatchString s = true)
    (hnames : r.SubexpNames.length = n + 1)
    (hsub : (r.FindStringSubmatch s).length = n + 1) :
    FindGroups r s = .ok (some (GoMap.setAll []
      ((identifiers (r.SubexpNames.drop 1)).zip ((r.FindStringSubmatch s).drop 1))), true) := by
  obtain ⟨hsl, hlen⟩ := sliceFrom_one_eq_ok r.SubexpNames n hnames
  have hne : ¬ (r.SubexpNames.drop 1).length = 0 := by omega
  have hpm := perMatch_eq (r.SubexpNames.drop 1) n hlen (r.FindStringSubmatch s) hsub
  unfold FindGroups
  simp only [hmatch, Bool.not_true, Bool.false_eq_true, if_false, hsl, ok_bind, hne]
  cases hsf : sliceFrom (r.FindStringSubmatch s) 1 with
  | error e => rw [hsf] at hpm; cases hpm
  | ok vs =>
    rw [hsf] at hpm
    simp only [ok_bind] at hpm ⊢
    rw [hpm]
    rfl

theorem FindAllGroups_outer_eq (names : List GoString) (n : Nat) (hn : names.length = n) :
    ∀ (matches1 : List (List GoString)) (res : Option (List GoMap)),
      (∀ mg ∈ matches1, mg.length = n + 1) →
      FindAllGroups.outer names matches1 res
        = .ok (if matches1 = [] then res
               else some (res.getD [] ++
                 matches1.map fun mg => GoMap.setAll [] ((identifiers names).zip (mg.drop 1)))) := by
  intro matches1
  induction matches1 with
  | nil => intro res _; rfl
  | cons mg rest ih =>
    intro res h
    have hmg := h mg (List.mem_cons_self _ _)
    have hpm := perMatch_eq names n hn mg hmg
    rw [FindAllGroups.outer]
    cases hsf : sliceFrom mg 1 with
    | error e => rw [hsf] at hpm; cases hpm
    | ok vs =>
      rw [hsf] at hpm
      simp only [ok_bind] at hpm ⊢
      rw [FindAllGroups_inner_eq_loop, hpm]
      simp only [ok_bind]
      rw [ih _ (fun mg1 h1 => h mg1 (List.mem_cons_of_mem _ h1))]
      by_cases hr : rest = []
      · simp [hr, goAppend]
      · simp [hr, goAppend]

theorem FindAllGroups_eq (r : Regexp) (s : GoString) (n : Nat) (hn : 1 ≤ n)
    (hmatch : r.MatchString s = true)
    (hnames : r.SubexpNames.length = n + 1)
    (hall : ∀ mg ∈ r.FindAllStringSubmatch s, mg.length = n + 1) :
    FindAllGroups r s
      = .ok (if r.FindAllStringSubmatch s = [] then none
             else some ((r.FindAllStringSubmatch s).map fun mg =>
               GoMap.setAll [] ((identifiers (r.SubexpNames.drop 1)).zip (mg.drop 1))), true) := by
  obtain ⟨hsl, hlen⟩ := sliceFrom_one_eq_ok r.SubexpNames n hnames
  have hne : ¬ (r.SubexpNames.drop 1).length = 0 := by omega
  unfold FindAllGroups
  simp only [hmatch, Bool.not_true, Bool.false_eq_true, if_false, hsl, ok_bind, hne]
  rw [FindAllGroups_outer_eq _ n hlen _ none hall]
  simp only [ok_bind, Option.getD_none, List.nil_append]
  rfl

theorem groupValues_length (s : GoString) :
    ∀ (n : Nat) (g : List Int), groupSpansOK s n g = true → (groupValues s g).length = n := by
  intro n
  induction n with
  | zero =>
    intro g h
    cases g with
    | nil => rfl
    | cons p rest => simp [groupSpansOK] at h
  | succ n ih =>
    intro g h
    match g, h with
    | [], h => simp [groupSpansOK] at h
    | [_], h => simp [groupSpansOK] at h
    | p :: q :: rest, h =>
      simp only [groupSpansOK, Bool.and_eq_true] at h
      simp [groupValues, ih rest h.2]

/-- The resolved identifiers, computed by `getGroupName` index by index. -/
theorem map_getGroupName_range (names : List GoString) :
    (List.range names.length).map (getGroupName names) = (identifiers names).map Except.ok := by
  apply List.ext_getElem?
  intro i
  by_cases hi : i < names.length
  · obtain ⟨k, hk, hg⟩ := getGroupName_eq_identifiers names i hi
    simp [List.getElem?_map, List.getElem?_range hi, hk, hg]
  · have h1 : names.length ≤ i := by omega
    have h2 : (identifiers names).length ≤ i := by
      rw [identifiers, identifiersFrom_length]; exact h1
    simp [List.getElem?_map, List.getElem?_eq_none h2, List.getElem?_eq_none, h1]

theorem card_getGroupName_range (names : List GoString) :
    ((List.range names.length).map (getGroupName names)).toFinset.card
      = (identifiers names).toFinset.card := by
  have himg : ((identifiers names).map Except.ok).toFinset
      = (identifiers names).toFinset.image (Except.ok : GoString → Except Panic GoString) := by
    ext x
    simp
  rw [map_getGroupName_range, himg]
  exact Finset.card_image_of_injective _ (fun a b h => by cases h; rfl)

theorem nodup_getGroupName_range (names : List GoString) :
    ((List.range names.length).map (getGroupName names)).Nodup ↔ (identifiers names).Nodup := by
  rw [map_getGroupName_range]
  exact List.nodup_map_iff (fun a b h => by cases h; rfl)

/-- The maps `ReplaceAllGroupsFunc` hands to the callback, under the engine
contract: for each match, the group texts under the resolved identifiers. -/
theorem calls_eq (r : Regexp) (s : GoString) (f : GoMap → GoString) (n : Nat)
    (ms : List (Nat × Nat × List Int))
    (hmatch : r.MatchString s = true)
    (hnames : r.SubexpNames.length = n + 1)
    (hms : r.FindAllSubmatchIndex s = ms.map spanList)
    (hgroups : ∀ m ∈ ms, groupSpansOK s n m.2.2 = true)
    (hord : spansOrdered s.length 0 (ms.map fun m => (m.1, m.2.1)) = true) :
    ReplaceAllGroupsFunc.calls r s (some f)
      = .ok (ms.map fun m => GoMap.setAll []
          ((identifiers (r.SubexpNames.drop 1)).zip (groupValues s m.2.2))) := by
  obtain ⟨maps, hmaps, hrun⟩ := run_spliced r s f n ms hmatch hnames hms hgroups hord
  obtain ⟨_, hlen⟩ := sliceFrom_one_eq_ok r.SubexpNames n hnames
  have hmapseq : maps = ms.map fun m => GoMap.setAll []
      ((identifiers (r.SubexpNames.drop 1)).zip (groupValues s m.2.2)) := by
    clear hrun hord hms
    induction hmaps with
    | nil => rfl
    | @cons m gm ms1 maps1 hgm _ ih =>
      have h1 := groups_eq_setAll s (r.SubexpNames.drop 1) n 0 m.2.2 []
        (hgroups m (List.mem_cons_self _ _)) (by omega)
      rw [hgm] at h1
      cases h1
      rw [List.map_cons, ih (fun m1 hm1 => hgroups m1 (List.mem_cons_of_mem _ hm1))]
      rfl
  simp [ReplaceAllGroupsFunc.calls, hrun, Except.map, hmapseq]

theorem identifiers_length_eq (names : List GoString) (n : Nat) (hlen : names.length = n)
    (mg : List GoString) (hmg : mg.length = n + 1) :
    (identifiers names).length = (mg.drop 1).length := by
  rw [identifiers, identifiersFrom_length, List.length_drop, hmg, hlen]
  omega

theorem FindGroups_zero_groups (r : Regexp) (s : GoString)
    (hnames : r.SubexpNames.length = 1) :
    FindGroups r s = .ok (none, r.MatchString s) := by
  obtain ⟨hsl, hlen⟩ := sliceFrom_one_eq_ok r.SubexpNames 0 hnames
  unfold FindGroups
  cases hm : r.MatchString s
  · rfl
  · simp only [Bool.not_true, Bool.false_eq_true, if_false, hsl, ok_bind, hlen, if_true]
    rfl

theorem FindAllGroups_zero_groups (r : Regexp) (s : GoString)
    (hnames : r.SubexpNames.length = 1) :
    FindAllGroups r s = .ok (none, r.MatchString s) := by
  obtain ⟨hsl, hlen⟩ := sliceFrom_one_eq_ok r.SubexpNames 0 hnames
  unfold FindAllGroups
  cases hm : r.MatchString s
  · rfl
  · simp only [Bool.not_true, Bool.false_eq_true, if_false, hsl, ok_bind, hlen, if_true]
    rfl

theorem FindGroups_no_match (r : Regexp) (s : GoString) (hm : r.MatchString s = false) :
    FindGroups r s = .ok (none, false) := by
  unfold FindGroups
  simp only [hm, Bool.not_false, if_true]
  rfl

theorem FindAllGroups_no_match (r : Regexp) (s : GoString) (hm : r.MatchString s = false) :
    FindAllGroups r s = .ok (none, false) := by
  unfold FindAllGroups
  simp only [hm, Bool.not_false, if_true]
  rfl

theorem zipWith_map_self {α β γ : Type} (h : α → β → γ) (g : α → β) (l : List α) :
    List.zipWith h l (l.map g) = l.map fun x => h x (g x) := by
  induction l with
  | nil => rfl
  | cons x l ih => simp [ih]

/-- The map the group loop of `ReplaceAllGroupsFunc` builds for each match,
under the engine contract. -/
theorem groups_forall₂_eq (s : GoString) (names : List GoString) (n : Nat)
    (hn : n ≤ names.length) (ms : List (Nat × Nat × List Int)) (maps : List GoMap)
    (hgroups : ∀ m ∈ ms, groupSpansOK s n m.2.2 = true)
    (hmaps : List.Forall₂
      (fun m gm => ReplaceAllGroupsFunc.groups s names 0 m.2.2 [] = .ok gm) ms maps) :
    maps = ms.map fun m => GoMap.setAll [] ((identifiers names).zip (groupValues s m.2.2)) := by
  induction hmaps with
  | nil => rfl
  | @cons m gm ms1 maps1 hgm _ ih =>
    have h1 := groups_eq_setAll s names n 0 m.2.2 []
      (hgroups m (List.mem_cons_self _ _)) (by omega)
    rw [hgm] at h1
    cases h1
    rw [List.map_cons, ih (fun m1 hm1 => hgroups m1 (List.mem_cons_of_mem _ hm1))]
    rfl

/-- Result and recorded calls of `ReplaceAllGroupsFunc`, in closed form, on a
matching subject with a non-nil callback under the engine contract. -/
theorem run_eq (r : Regexp) (s : GoString) (f : GoMap → GoString) (n : Nat)
    (ms : List (Nat × Nat × List Int))
    (hmatch : r.MatchString s = true)
    (hnames : r.SubexpNames.length = n + 1)
    (hms : r.FindAllSubmatchIndex s = ms.map spanList)
    (hgroups : ∀ m ∈ ms, groupSpansOK s n m.2.2 = true)
    (hord : spansOrdered s.length 0 (ms.map fun m => (m.1, m.2.1)) = true) :
    ReplaceAllGroupsFunc.run r s (some f)
      = .ok (spliced s 0 (ms.map fun m => (m.1, m.2.1,
              f (GoMap.setAll []
                ((identifiers (r.SubexpNames.drop 1)).zip (groupValues s m.2.2))))),
             ms.map fun m => GoMap.setAll []
                ((identifiers (r.SubexpNames.drop 1)).zip (groupValues s m.2.2))) := by
  obtain ⟨maps, hmaps, hrun⟩ := run_spliced r s f n ms hmatch hnames hms hgroups hord
  obtain ⟨_, hlen⟩ := sliceFrom_one_eq_ok r.SubexpNames n hnames
  have hmapseq := groups_forall₂_eq s (r.SubexpNames.drop 1) n (by omega) ms maps hgroups hmaps
  rw [hrun, hmapseq, zipWith_map_self]

theorem spliced_length (s : GoString) :
    ∀ (spans : List (Nat × Nat × GoString)) (last : Nat),
      spansOrdered s.length last (spans.map fun t => (t.1, t.2.1)) = true →
      (spliced s last spans).length + (spans.map fun t => t.2.1 - t.1).sum
        = (s.length - last) + (spans.map fun t => t.2.2.length).sum := by
  intro spans
  induction spans with
  | nil => intro last _; simp [spliced]
  | cons t rest ih =>
    intro last h
    obtain ⟨a, b, rep⟩ := t
    simp only [List.map_cons, spansOrdered, Bool.and_eq_true, decide_eq_true_eq] at h
    obtain ⟨⟨hla, hab⟩, hrest⟩ := h
    have hb := spansOrdered_le _ _ _ hrest
    have hih := ih b hrest
    simp only [spliced, List.length_append, List.length_take, List.length_drop, List.map_cons,
      List.sum_cons]
    omega

/-- Entry `i` of `groupValues`, from the pair `(idxs[2i+2], idxs[2i+3])`; a
pair the code treats as set is a valid slice of the subject. -/
theorem groupValues_getElem? (s : GoString) :
    ∀ (n : Nat) (g : List Int) (i : Nat) (p q : Int),
      groupSpansOK s n g = true → g[2 * i]? = some p → g[2 * i + 1]? = some q →
      i < n ∧
      (groupValues s g)[i]?
        = some (if p = -1 ∨ q = -1 then [] else (s.drop p.toNat).take (q.toNat - p.toNat)) ∧
      (¬ (p = -1 ∨ q = -1) →
        slice s p q = .ok ((s.drop p.toNat).take (q.toNat - p.toNat))) := by
  intro n
  induction n with
  | zero =>
    intro g i p q hg hp _
    cases g with
    | nil => simp at hp
    | cons p0 rest => simp [groupSpansOK] at hg
  | succ n ih =>
    intro g i p q hg hp hq
    match g, hg, hp, hq with
    | [], hg, _, _ => simp [groupSpansOK] at hg
    | [_], hg, _, _ => simp [groupSpansOK] at hg
    | p0 :: q0 :: rest, hg, hp, hq =>
      simp only [groupSpansOK, Bool.and_eq_true, Bool.or_eq_true, decide_eq_true_eq] at hg
      obtain ⟨hpq, hrest⟩ := hg
      cases i with
      | zero =>
        simp only [Nat.mul_zero, List.getElem?_cons_zero, Option.some.injEq] at hp
        simp only [Nat.mul_zero, Nat.zero_add, List.getElem?_cons_succ, List.getElem?_cons_zero,
          Option.some.injEq] at hq
        subst hp
        subst hq
        refine ⟨by omega, by simp [groupValues], ?_⟩
        intro hu
        have hv : 0 ≤ p0 ∧ p0 ≤ q0 ∧ q0 ≤ (s.length : Int) := by
          rcases hpq with h | h
          · exact absurd h hu
          · exact h
        simp [slice, hv]
      | succ i =>
        have e1 : 2 * (i + 1) = (2 * i + 1) + 1 := by omega
        have e2 : 2 * (i + 1) + 1 = ((2 * i + 1) + 1) + 1 := by omega
        rw [e1, List.getElem?_cons_succ, List.getElem?_cons_succ] at hp
        rw [e2, List.getElem?_cons_succ, List.getElem?_cons_succ] at hq
        obtain ⟨h1, h2, h3⟩ := ih rest i p q hrest hp hq
        refine ⟨by omega, ?_, h3⟩
        simp only [groupValues, List.getElem?_cons_succ]
        exact h2

/-- The map built from the values `vs` of the `n` declared groups: the
identifier of group `i` is a key, and it holds the value of group `i` when no
later group resolves to the same identifier. -/
theorem groupMap_lookup (names : List GoString) (n : Nat) (hlen : names.length = n)
    (vs : List GoString) (hvs : vs.length = n) (i : Nat) (k v : GoString) (hi : i < n)
    (hk : getGroupName names i = .ok k) (hv : vs[i]? = some v) :
    k ∈ (GoMap.setAll [] ((identifiers names).zip vs)).keys ∧
    ((∀ j, i < j → j < n → getGroupName names j ≠ .ok k) →
      (GoMap.setAll [] ((identifiers names).zip vs)).lookup k = some v) := by
  have hidlen : (identifiers names).length = n := by
    rw [identifiers, identifiersFrom_length, hlen]
  have hi1 : i < (identifiers names).length := by omega
  have hi2 : i < vs.length := by omega
  obtain ⟨k1, hk1, hg1⟩ := getGroupName_eq_identifiers names i (by omega)
  rw [hk] at hg1
  cases hg1
  rw [List.getElem?_eq_getElem hi1] at hk1
  cases hk1
  rw [List.getElem?_eq_getElem hi2] at hv
  cases hv
  constructor
  · rw [GoMap.mem_keys_setAll_zip _ _ (by omega)]
    exact List.getElem_mem _
  · intro hlast
    apply GoMap.lookup_setAll_zip (identifiers names) vs [] i hi1 hi2 (by omega)
    intro j hj hij hjeq
    obtain ⟨k2, hk2, hg2⟩ := getGroupName_eq_identifiers names j (by omega)
    rw [List.getElem?_eq_getElem hj] at hk2
    cases hk2
    rw [hjeq] at hg2
    exact hlast j hij (by omega) hg2

theorem getGroupName_ok_iff (names : List GoString) (idx : Nat) :
    (∃ k, getGroupName names idx = .ok k) ↔ idx < names.length := by
  constructor
  · rintro ⟨k, hk⟩
    by_contra hge
    have hnone : names[idx]? = none := List.getElem?_eq_none (by omega)
    simp [getGroupName, index, hnone] at hk
  · intro h
    exact ⟨_, getGroupName_eq_ok names idx h⟩

theorem slice_ok_iff (s : GoString) (lo hi : Int) :
    (∃ v, slice s lo hi = .ok v) ↔ (0 ≤ lo ∧ lo ≤ hi ∧ hi ≤ (s.length : Int)) := by
  unfold slice
  split
  · rename_i h
    simp [h]
  · rename_i h
    simp [h]

theorem sliceTail_ok_iff (s : GoString) (lo : Int) :
    (∃ v, sliceTail s lo = .ok v) ↔ (0 ≤ lo ∧ lo ≤ (s.length : Int)) := by
  unfold sliceTail
  split
  · rename_i h
    simp [h]
  · rename_i h
    simp [h]

theorem submatchTexts_eq_groupValues (s : GoString) :
    ∀ (n : Nat) (g : List Int), groupSpansOK s n g = true →
      submatchTexts s g = groupValues s g := by
  intro n
  induction n with
  | zero =>
    intro g h
    cases g with
    | nil => rfl
    | cons p rest => simp [groupSpansOK] at h
  | succ n ih =>
    intro g h
    match g, h with
    | [], h => simp [groupSpansOK] at h
    | [_], h => simp [groupSpansOK] at h
    | p :: q :: rest, h =>
      simp only [groupSpansOK, Bool.and_eq_true, Bool.or_eq_true, decide_eq_true_eq] at h
      obtain ⟨hpq, hrest⟩ := h
      simp only [submatchTexts, groupValues, ih rest hrest, List.cons.injEq, and_true]
      by_cases hu : p = -1 ∨ q = -1
      · rw [if_pos hu]
        rcases hu with h1 | h1
        · subst h1
          simp
        · subst h1
          split
          · simp
          · rfl
      · rw [if_neg hu]
        have hv : 0 ≤ p := by
          rcases hpq with h1 | h1
          · exact absurd h1 hu
          · exact h1.1
        rw [if_pos hv]

theorem spansOrdered_sum_le (n : Nat) :
    ∀ (spans : List (Nat × Nat)) (last : Nat), spansOrdered n last spans = true →
      last + (spans.map fun sp => sp.2 - sp.1).sum ≤ n := by
  intro spans
  induction spans with
  | nil =>
    intro last h
    simpa [spansOrdered] using h
  | cons sp rest ih =>
    intro last h
    obtain ⟨a, b⟩ := sp
    simp only [spansOrdered, Bool.and_eq_true, decide_eq_true_eq] at h
    have := ih b h.2
    simp only [List.map_cons, List.sum_cons]
    omega

theorem Itoa_succ_injective (i j : Nat)
    (h : Itoa ((i : Int) + 1) = Itoa ((j : Int) + 1)) : i = j := by
  have hi := decimalValue_Itoa (i + 1)
  have hj := decimalValue_Itoa (j + 1)
  have e : ∀ k : Nat, (((k + 1 : Nat) : Int)) = (k : Int) + 1 := fun k => by push_cast; rfl
  rw [e] at hi hj
  rw [h, hj] at hi
  simp only [Option.some.injEq] at hi
  omega

theorem Itoa_succ_ne_nil (j : Nat) : Itoa ((j : Int) + 1) ≠ [] := by
  intro h
  have hj := decimalValue_Itoa (j + 1)
  have e : (((j + 1 : Nat) : Int)) = (j : Int) + 1 := by push_cast; rfl
  rw [e, h] at hj
  simp [decimalValue] at hj

/-- Injectivity of `getGroupName` on the declared indices when the non-empty
names are pairwise distinct and none is the decimal text of an unnamed
group's position. -/
theorem getGroupName_inj (names : List GoString) (n : Nat) (hlen : names.length = n)
    (hdistinct : ∀ i, i < n → ∀ j, j < n →
      names[i]? = names[j]? → i = j ∨ names[i]? = some [])
    (hnodigit : ∀ i, i < n → ∀ j, j < n →
      names[j]? = some [] → names[i]? ≠ some (Itoa ((j : Int) + 1))) :
    ∀ i j, i < n → j < n → getGroupName names i = getGroupName names j → i = j := by
  intro i j hi hj h
  have hi1 : i < names.length := by omega
  have hj1 : j < names.length := by omega
  rw [getGroupName_eq_ok names i hi1, getGroupName_eq_ok names j hj1] at h
  simp only [Except.ok.injEq] at h
  have gi : names[i]? = some names[i] := List.getElem?_eq_getElem hi1
  have gj : names[j]? = some names[j] := List.getElem?_eq_getElem hj1
  by_cases ei : names[i] = []
  · by_cases ej : names[j] = []
    · rw [if_pos ei, if_pos ej] at h
      exact Itoa_succ_injective i j h
    · rw [if_pos ei, if_neg ej] at h
      exfalso
      apply hnodigit j hj i hi (by rw [gi, ei])
      rw [gj, ← h]
  · by_cases ej : names[j] = []
    · rw [if_neg ei, if_pos ej] at h
      exfalso
      apply hnodigit i hi j hj (by rw [gj, ej])
      rw [gi, h]
    · rw [if_neg ei, if_neg ej] at h
      rcases hdistinct i hi j hj (by rw [gi, gj, h]) with e | e
      · exact e
      · rw [gi] at e
        exact absurd (Option.some.inj e) ei

/-- With injective identifiers the map built from the values `vs` of the `n`
declared groups has `n` entries, and the identifier of group `i` holds
`vs[i]`. -/
theorem groupMap_of_injective (names : List GoString) (n : Nat) (hlen : names.length = n)
    (hinj : ∀ i j, i < n → j < n → getGroupName names i = getGroupName names j → i = j)
    (vs : List GoString) (hvs : vs.length = n) :
    (GoMap.setAll [] ((identifiers names).zip vs)).len = n ∧
    ∀ i k, i < n → getGroupName names i = .ok k →
      ∃ v, vs[i]? = some v ∧ (GoMap.setAll [] ((identifiers names).zip vs)).lookup k = some v := by
  have hidlen : (identifiers names).length = n := by
    rw [identifiers, identifiersFrom_length, hlen]
  constructor
  · rw [GoMap.len_setAll_zip _ _ (by omega)]
    have hnd : ((List.range names.length).map (getGroupName names)).Nodup := by
      apply List.Nodup.map_on _ (List.nodup_range _)
      intro x hx y hy hxy
      rw [List.mem_range] at hx hy
      exact hinj x y (by omega) (by omega) hxy
    rw [nodup_getGroupName_range] at hnd
    rw [List.toFinset_card_of_nodup hnd, hidlen]
  · intro i k hi hk
    have hi2 : i < vs.length := by omega
    refine ⟨vs[i], List.getElem?_eq_getElem hi2, ?_⟩
    apply (groupMap_lookup names n hlen vs hvs i k vs[i] hi hk
      (List.getElem?_eq_getElem hi2)).2
    intro j hij hj hjk
    have := hinj i j hi hj (by rw [hk, hjk])
    omega

/-! ## The claims -/

/-- C1: on a subject the pattern matches, with a non-nil callback `f` and
engine-reported matches whose overall spans satisfy
`0 ≤ a_1 ≤ b_1 ≤ ... ≤ b_k ≤ len(s)` (group entries as the engine reports
them: one pair per declared group, unset or inside the subject),
`ReplaceAllGroupsFunc` returns `s[0:a_1] + f(m_1) + s[b_1:a_2] + ... + f(m_k) + s[b_k:]`
and calls `f` with exactly `m_1, ..., m_k` in this order, where `m_i` is the
group map of match `i`: the captured texts of its groups (`""` for an unset
group) stored, in declaration order, under the resolved identifiers. -/
theorem ReplaceAllGroupsFunc_splices (r : Regexp) (s : GoString) (f : GoMap → GoString)
    (n : Nat) (ms : List (Nat × Nat × List Int))
    (hmatch : r.MatchString s = true)
    (hnames : r.SubexpNames.length = n + 1)
    (hms : r.FindAllSubmatchIndex s = ms.map spanList)
    (hgroups : ∀ m ∈ ms, groupSpansOK s n m.2.2 = true)
    (hord : spansOrdered s.length 0 (ms.map fun m => (m.1, m.2.1)) = true) :
    ReplaceAllGroupsFunc.calls r s (some f)
      = .ok (ms.map fun m => GoMap.setAll []
          ((identifiers (r.SubexpNames.drop 1)).zip (groupValues s m.2.2))) ∧
    ReplaceAllGroupsFunc r s (some f)
      = .ok (spliced s 0 (ms.map fun m => (m.1, m.2.1,
          f (GoMap.setAll []
            ((identifiers (r.SubexpNames.drop 1)).zip (groupValues s m.2.2)))))) := by
  have hrun := run_eq r s f n ms hmatch hnames hms hgroups hord
  constructor
  · rw [ReplaceAllGroupsFunc.calls, hrun]
    rfl
  · rw [ReplaceAllGroupsFunc, hrun]
    rfl

/-- Instance of C1: the repository test "non-matches" (pattern `regularx` on
`"pre hello, world! post"`, one match with overall span `[4, 17)`): the
callback receives `{greeting: hello, name: world}` and the result is
`"pre world, hello. post"`. -/
theorem ReplaceAllGroupsFunc_splices_witness :
    ReplaceAllGroupsFunc.calls regularx (str "pre hello, world! post")
        (some replaceNameGreeting)
      = .ok [[(str "greeting", str "hello"), (str "name", str "world")]] ∧
    ReplaceAllGroupsFunc regularx (str "pre hello, world! post") (some replaceNameGreeting)
      = .ok (str "pre world, hello. post") :=
  ReplaceAllGroupsFunc_splices regularx (str "pre hello, world! post") replaceNameGreeting 2
    [(4, 17, [4, 9, 11, 16])] (by decide) (by decide) (by decide) (by decide) (by decide)

/-- C2: if the pattern does not match the subject, or the callback is nil,
`ReplaceAllGroupsFunc` returns the subject unchanged and never calls the
callback. -/
theorem ReplaceAllGroupsFunc_noop (r : Regexp) (s : GoString)
    (replace : Option (GoMap → GoString))
    (h : r.MatchString s = false ∨ replace = none) :
    ReplaceAllGroupsFunc r s replace = .ok s ∧
    ReplaceAllGroupsFunc.calls r s replace = .ok [] := by
  have hrun : ReplaceAllGroupsFunc.run r s replace = .ok (s, []) := by
    unfold ReplaceAllGroupsFunc.run
    rcases h with h | h
    · simp [h]
    · subst h
      split <;> rfl
  simp [ReplaceAllGroupsFunc, ReplaceAllGroupsFunc.calls, hrun, Except.map]

/-- Instances of C2: a subject `regularx` does not match (with a callback),
and a matching subject with the nil callback. -/
theorem ReplaceAllGroupsFunc_noop_witness :
    (ReplaceAllGroupsFunc regularx (str "hello") (some replaceNameGreeting) = .ok (str "hello") ∧
      ReplaceAllGroupsFunc.calls regularx (str "hello") (some replaceNameGreeting) = .ok []) ∧
    (ReplaceAllGroupsFunc regularx (str "pre hello, world! post") none
        = .ok (str "pre hello, world! post") ∧
      ReplaceAllGroupsFunc.calls regularx (str "pre hello, world! post") none = .ok []) :=
  ⟨ReplaceAllGroupsFunc_noop regularx (str "hello") (some replaceNameGreeting)
      (Or.inl (by decide)),
   ReplaceAllGroupsFunc_noop regularx (str "pre hello, world! post") none (Or.inr rfl)⟩

/-- C3 (round trip): under the hypotheses of C1, if the callback returns, for
every match, that match's own matched text `s[a_i:b_i]`, then
`ReplaceAllGroupsFunc` returns the subject unchanged. -/
theorem ReplaceAllGroupsFunc_roundtrip (r : Regexp) (s : GoString) (f : GoMap → GoString)
    (n : Nat) (ms : List (Nat × Nat × List Int))
    (hmatch : r.MatchString s = true)
    (hnames : r.SubexpNames.length = n + 1)
    (hms : r.FindAllSubmatchIndex s = ms.map spanList)
    (hgroups : ∀ m ∈ ms, groupSpansOK s n m.2.2 = true)
    (hord : spansOrdered s.length 0 (ms.map fun m => (m.1, m.2.1)) = true)
    (hf : ∀ m ∈ ms,
      (ReplaceAllGroupsFunc.groups s (r.SubexpNames.drop 1) 0 m.2.2 []).map f
        = .ok ((s.drop m.1).take (m.2.1 - m.1))) :
    ReplaceAllGroupsFunc r s (some f) = .ok s := by
  obtain ⟨maps, hmaps, hrun⟩ := run_spliced r s f n ms hmatch hnames hms hgroups hord
  have hzip : List.zipWith (fun m gm => (m.1, m.2.1, f gm)) ms maps
      = (ms.map fun m => (m.1, m.2.1)).map
          fun sp => (sp.1, sp.2, (s.drop sp.1).take (sp.2 - sp.1)) := by
    clear hrun hord hms hgroups
    induction hmaps with
    | nil => rfl
    | @cons m gm ms1 maps1 hgm _ ih =>
      have h1 := hf m (List.mem_cons_self _ _)
      rw [hgm] at h1
      have h2 : f gm = (s.drop m.1).take (m.2.1 - m.1) := by
        simpa [Except.map] using h1
      simp only [List.zipWith_cons_cons, List.map_cons, h2]
      rw [ih (fun m1 hm1 => hf m1 (List.mem_cons_of_mem _ hm1))]
  simp only [ReplaceAllGroupsFunc, hrun, Except.map, hzip]
  rw [spliced_self s _ 0 hord]
  rfl

/-- Instance of C3: the test pattern `nestedrx`, whose group `greeting` wraps
the whole match, with the callback returning `m["greeting"]`. -/
theorem ReplaceAllGroupsFunc_roundtrip_witness :
    ReplaceAllGroupsFunc nestedrx (str "hello, world! hi, cosmos!")
      (some fun m => m.get (str "greeting")) = .ok (str "hello, world! hi, cosmos!") :=
  ReplaceAllGroupsFunc_roundtrip nestedrx (str "hello, world! hi, cosmos!")
    (fun m => m.get (str "greeting")) 2
    [(0, 13, [0, 13, 7, 12]), (14, 25, [14, 25, 18, 24])]
    (by decide) (by decide) (by decide) (by decide) (by decide) (by decide)

/-- C4: for an in-range zero-based index, `getGroupName` returns the declared
name unchanged when it is non-empty, and otherwise the decimal text of
`idx + 1` (a text whose decimal value is `idx + 1`); for the names
`["greeting", "", ""]` the identifiers are `"greeting"`, `"2"`, `"3"`. -/
theorem getGroupName_spec (groupNames : List GoString) (idx : Nat)
    (h : idx < groupNames.length) :
    getGroupName groupNames idx
        = .ok (if groupNames[idx] ≠ [] then groupNames[idx] else Itoa ((idx : Int) + 1)) ∧
    decimalValue (Itoa ((idx : Int) + 1)) = some (idx + 1) ∧
    (List.range 3).map (getGroupName [str "greeting", [], []])
        = [.ok (str "greeting"), .ok (str "2"), .ok (str "3")] := by
  refine ⟨?_, ?_, by decide⟩
  · rw [getGroupName_eq_ok groupNames idx h]
    by_cases hn : groupNames[idx] = [] <;> simp [hn]
  · exact decimalValue_Itoa (idx + 1)

/-- Instance of C4: the unnamed third group of `["greeting", "", ""]`. -/
theorem getGroupName_spec_witness :
    getGroupName [str "greeting", [], []] 2 = .ok (str "3") ∧
    decimalValue (str "3") = some 3 :=
  ⟨(getGroupName_spec [str "greeting", [], []] 2 (by decide)).1,
   (getGroupName_spec [str "greeting", [], []] 2 (by decide)).2.1⟩

/-- C5, counterexample: the pattern `(?P<bob>a+)(?P<bob>b+)` declares two
groups and matches `"ab"` (the engine reports one text per group), yet the
map returned by `FindGroups` has one entry. -/
theorem FindGroups_entries_counterexample :
    bobrx.MatchString (str "ab") = true ∧
    (bobrx.SubexpNames.drop 1).length = 2 ∧
    (bobrx.FindStringSubmatch (str "ab")).length = 2 + 1 ∧
    FindGroups bobrx (str "ab") = .ok (some [(str "bob", str "b")], true) ∧
    GoMap.len [(str "bob", str "b")] = 1 := by
  decide

/-- C5, as amended: for a pattern with `n ≥ 1` declared groups and a subject
it matches, the map returned by `FindGroups`, every map returned by
`FindAllGroups` and every map passed to the callback by `ReplaceAllGroupsFunc`
has exactly one entry per distinct resolved identifier `getGroupName(names, i)`,
`i < n`; that is `n` entries when these identifiers are pairwise distinct. -/
theorem groupMap_entries (r : Regexp) (s : GoString) (f : GoMap → GoString) (n : Nat)
    (ms : List (Nat × Nat × List Int))
    (hn : 1 ≤ n)
    (hmatch : r.MatchString s = true)
    (hnames : r.SubexpNames.length = n + 1)
    (hsub : (r.FindStringSubmatch s).length = n + 1)
    (hall : ∀ mg ∈ r.FindAllStringSubmatch s, mg.length = n + 1)
    (hms : r.FindAllSubmatchIndex s = ms.map spanList)
    (hgroups : ∀ m ∈ ms, groupSpansOK s n m.2.2 = true)
    (hord : spansOrdered s.length 0 (ms.map fun m => (m.1, m.2.1)) = true) :
    (∃ m, FindGroups r s = .ok (some m, true) ∧
      m.len = ((List.range n).map (getGroupName (r.SubexpNames.drop 1))).toFinset.card) ∧
    (∃ res, FindAllGroups r s = .ok (res, true) ∧
      (res.getD []).length = (r.FindAllStringSubmatch s).length ∧
      ∀ m ∈ res.getD [],
        m.len = ((List.range n).map (getGroupName (r.SubexpNames.drop 1))).toFinset.card) ∧
    (∃ maps, ReplaceAllGroupsFunc.calls r s (some f) = .ok maps ∧
      maps.length = ms.length ∧
      ∀ m ∈ maps,
        m.len = ((List.range n).map (getGroupName (r.SubexpNames.drop 1))).toFinset.card) ∧
    (((List.range n).map (getGroupName (r.SubexpNames.drop 1))).Nodup →
      ((List.range n).map (getGroupName (r.SubexpNames.drop 1))).toFinset.card = n) := by
  obtain ⟨_, hlen⟩ := sliceFrom_one_eq_ok r.SubexpNames n hnames
  have hcard := card_getGroupName_range (r.SubexpNames.drop 1)
  rw [hlen] at hcard
  have hidlen : (identifiers (r.SubexpNames.drop 1)).length = n := by
    rw [identifiers, identifiersFrom_length, hlen]
  refine ⟨⟨_, FindGroups_eq r s n hn hmatch hnames hsub, ?_⟩,
    ⟨_, FindAllGroups_eq r s n hn hmatch hnames hall, ?_, ?_⟩,
    ⟨_, calls_eq r s f n ms hmatch hnames hms hgroups hord, ?_, ?_⟩, ?_⟩
  · rw [hcard]
    exact GoMap.len_setAll_zip _ _ (identifiers_length_eq _ n hlen _ hsub)
  · by_cases he : r.FindAllStringSubmatch s = [] <;> simp [he]
  · intro m hm
    by_cases he : r.FindAllStringSubmatch s = []
    · simp [he] at hm
    · simp only [he, if_false, Option.getD_some, List.mem_map] at hm
      obtain ⟨mg, hmg, rfl⟩ := hm
      rw [hcard]
      exact GoMap.len_setAll_zip _ _ (identifiers_length_eq _ n hlen _ (hall mg hmg))
  · simp
  · intro m hm
    simp only [List.mem_map] at hm
    obtain ⟨m1, hm1, rfl⟩ := hm
    rw [hcard]
    exact GoMap.len_setAll_zip _ _ (by rw [hidlen, groupValues_length s n _ (hgroups m1 hm1)])
  · intro hnd
    have h1 := List.toFinset_card_of_nodup hnd
    simpa using h1

/-- Instance of C5 as amended: the test pattern `regularx`, two groups with
distinct names, on `"pre hello, world! post"`. -/
theorem groupMap_entries_witness :
    ∃ m, FindGroups regularx (str "pre hello, world! post") = .ok (some m, true) ∧
      m.len = ((List.range 2).map (getGroupName (regularx.SubexpNames.drop 1))).toFinset.card :=
  (groupMap_entries regularx (str "pre hello, world! post") replaceNameGreeting 2
    [(4, 17, [4, 9, 11, 16])] (by decide) (by decide) (by decide) (by decide) (by decide)
    (by decide) (by decide) (by decide)).1

/-- C6: for a pattern with `n ≥ 1` declared groups and a subject it matches,
the keys of the map returned by `FindGroups`, and of every map returned by
`FindAllGroups`, are exactly the identifiers `getGroupName(names, i)`,
`i < n`: the key set does not depend on the match or the subject. -/
theorem groupMap_keys (r : Regexp) (s : GoString) (n : Nat)
    (hn : 1 ≤ n)
    (hmatch : r.MatchString s = true)
    (hnames : r.SubexpNames.length = n + 1)
    (hsub : (r.FindStringSubmatch s).length = n + 1)
    (hall : ∀ mg ∈ r.FindAllStringSubmatch s, mg.length = n + 1) :
    (∃ m, FindGroups r s = .ok (some m, true) ∧
      ∀ k, k ∈ m.keys ↔ ∃ i, i < n ∧ getGroupName (r.SubexpNames.drop 1) i = .ok k) ∧
    (∃ res, FindAllGroups r s = .ok (res, true) ∧
      (res.getD []).length = (r.FindAllStringSubmatch s).length ∧
      ∀ m ∈ res.getD [],
        ∀ k, k ∈ m.keys ↔ ∃ i, i < n ∧ getGroupName (r.SubexpNames.drop 1) i = .ok k) := by
  obtain ⟨_, hlen⟩ := sliceFrom_one_eq_ok r.SubexpNames n hnames
  have hidlen : (identifiers (r.SubexpNames.drop 1)).length = n := by
    rw [identifiers, identifiersFrom_length, hlen]
  have hmem := mem_identifiers (r.SubexpNames.drop 1)
  rw [hlen] at hmem
  refine ⟨⟨_, FindGroups_eq r s n hn hmatch hnames hsub, ?_⟩,
    ⟨_, FindAllGroups_eq r s n hn hmatch hnames hall, ?_, ?_⟩⟩
  · intro k
    rw [GoMap.mem_keys_setAll_zip _ _ (identifiers_length_eq _ n hlen _ hsub)]
    exact hmem k
  · by_cases he : r.FindAllStringSubmatch s = [] <;> simp [he]
  · intro m hm k
    by_cases he : r.FindAllStringSubmatch s = []
    · simp [he] at hm
    · simp only [he, if_false, Option.getD_some, List.mem_map] at hm
      obtain ⟨mg, hmg, rfl⟩ := hm
      rw [GoMap.mem_keys_setAll_zip _ _ (identifiers_length_eq _ n hlen _ (hall mg hmg))]
      exact hmem k

/-- Instance of C6: the test pattern `regularx` on `"pre hello, world! post"`. -/
theorem groupMap_keys_witness :
    ∃ m, FindGroups regularx (str "pre hello, world! post") = .ok (some m, true) ∧
      ∀ k, k ∈ m.keys ↔
        ∃ i, i < 2 ∧ getGroupName (regularx.SubexpNames.drop 1) i = .ok k :=
  (groupMap_keys regularx (str "pre hello, world! post") 2
    (by decide) (by decide) (by decide) (by decide) (by decide)).1

/-- C7, counterexample: the pattern `(\w+),\s*(?P<1>\w+)!` declares two
groups and matches `"hello, world!"`; group 0 resolves to the identifier
`"1"` and captured `"hello"`, yet the map returned by `FindGroups` holds
`"world"` under `"1"`. -/
theorem FindGroups_value_counterexample :
    digitrx.MatchString (str "hello, world!") = true ∧
    (digitrx.SubexpNames.drop 1).length = 2 ∧
    digitrx.FindStringSubmatch (str "hello, world!")
      = [str "hello, world!", str "hello", str "world"] ∧
    getGroupName (digitrx.SubexpNames.drop 1) 0 = .ok (str "1") ∧
    FindGroups digitrx (str "hello, world!") = .ok (some [(str "1", str "world")], true) ∧
    GoMap.lookup [(str "1", str "world")] (str "1") ≠ some (str "hello") := by
  decide

/-- C7, as amended: for a pattern with `n ≥ 1` declared groups, a subject it
matches and a group index `i < n` such that no later group resolves to the
same identifier, the map returned by `FindGroups` holds, under
`getGroupName(names, i)`, the text the engine captured for group `i` in the
first match. -/
theorem FindGroups_value (r : Regexp) (s : GoString) (n : Nat)
    (hn : 1 ≤ n)
    (hmatch : r.MatchString s = true)
    (hnames : r.SubexpNames.length = n + 1)
    (hsub : (r.FindStringSubmatch s).length = n + 1) :
    ∃ m, FindGroups r s = .ok (some m, true) ∧
      ∀ (i : Nat) (k : GoString), i < n →
        getGroupName (r.SubexpNames.drop 1) i = .ok k →
        (∀ j, i < j → j < n → getGroupName (r.SubexpNames.drop 1) j ≠ .ok k) →
        (m.lookup k).isSome = true ∧ m.lookup k = (r.FindStringSubmatch s)[i + 1]? := by
  obtain ⟨_, hlen⟩ := sliceFrom_one_eq_ok r.SubexpNames n hnames
  have hidlen : (identifiers (r.SubexpNames.drop 1)).length = n := by
    rw [identifiers, identifiersFrom_length, hlen]
  refine ⟨_, FindGroups_eq r s n hn hmatch hnames hsub, ?_⟩
  intro i k hi hk hlast
  have hi1 : i < (identifiers (r.SubexpNames.drop 1)).length := by omega
  have hi2 : i < ((r.FindStringSubmatch s).drop 1).length := by
    rw [List.length_drop, hsub]; omega
  obtain ⟨k1, hk1, hg1⟩ := getGroupName_eq_identifiers (r.SubexpNames.drop 1) i (by omega)
  rw [hk] at hg1
  cases hg1
  rw [List.getElem?_eq_getElem hi1] at hk1
  cases hk1
  have hlook := GoMap.lookup_setAll_zip (identifiers (r.SubexpNames.drop 1))
    ((r.FindStringSubmatch s).drop 1) [] i hi1 hi2 (identifiers_length_eq _ n hlen _ hsub) (by
      intro j hj hij hjeq
      obtain ⟨k2, hk2, hg2⟩ := getGroupName_eq_identifiers (r.SubexpNames.drop 1) j (by omega)
      rw [List.getElem?_eq_getElem hj] at hk2
      cases hk2
      rw [hjeq] at hg2
      exact hlast j hij (by omega) hg2)
  rw [hlook]
  refine ⟨rfl, ?_⟩
  have hi3 : i + 1 < (r.FindStringSubmatch s).length := by omega
  rw [List.getElem?_eq_getElem hi3, List.getElem_drop]
  simp [Nat.add_comm]

/-- Instance of C7 as amended: the test pattern `regularx` on
`"pre hello, world! post"`. -/
theorem FindGroups_value_witness :
    ∃ m, FindGroups regularx (str "pre hello, world! post") = .ok (some m, true) ∧
      ∀ (i : Nat) (k : GoString), i < 2 →
        getGroupName (regularx.SubexpNames.drop 1) i = .ok k →
        (∀ j, i < j → j < 2 → getGroupName (regularx.SubexpNames.drop 1) j ≠ .ok k) →
        (m.lookup k).isSome = true ∧
        m.lookup k = (regularx.FindStringSubmatch (str "pre hello, world! post"))[i + 1]? :=
  FindGroups_value regularx (str "pre hello, world! post") 2
    (by decide) (by decide) (by decide) (by decide)

/-- C8: for a pattern with `n ≥ 1` declared groups and a subject it matches,
`FindAllGroups` returns `found = true` and one map per engine-reported match,
in scan order; the `j`-th map is what the construction of `FindGroups`
(slice off the whole match, run the loop of `FindGroups` on an empty map)
yields on the `j`-th match; `FindGroups` itself returns that construction on
the first match. -/
theorem FindAllGroups_perMatch (r : Regexp) (s : GoString) (n : Nat)
    (hn : 1 ≤ n)
    (hmatch : r.MatchString s = true)
    (hnames : r.SubexpNames.length = n + 1)
    (hsub : (r.FindStringSubmatch s).length = n + 1)
    (hall : ∀ mg ∈ r.FindAllStringSubmatch s, mg.length = n + 1) :
    ∃ (res : Option (List GoMap)) (maps : List GoMap) (m : GoMap),
      FindAllGroups r s = .ok (res, true) ∧
      res.getD [] = maps ∧
      (r.FindAllStringSubmatch s ≠ [] → res = some maps) ∧
      maps.length = (r.FindAllStringSubmatch s).length ∧
      List.Forall₂
        (fun mg gm =>
          (sliceFrom mg 1 >>= fun vs => FindGroups.loop (r.SubexpNames.drop 1) 0 vs []) = .ok gm)
        (r.FindAllStringSubmatch s) maps ∧
      FindGroups r s = .ok (some m, true) ∧
      (sliceFrom (r.FindStringSubmatch s) 1 >>= fun vs =>
        FindGroups.loop (r.SubexpNames.drop 1) 0 vs []) = .ok m := by
  obtain ⟨_, hlen⟩ := sliceFrom_one_eq_ok r.SubexpNames n hnames
  refine ⟨_, (r.FindAllStringSubmatch s).map fun mg =>
      GoMap.setAll [] ((identifiers (r.SubexpNames.drop 1)).zip (mg.drop 1)), _,
    FindAllGroups_eq r s n hn hmatch hnames hall, ?_, ?_, ?_, ?_,
    FindGroups_eq r s n hn hmatch hnames hsub, ?_⟩
  · by_cases he : r.FindAllStringSubmatch s = [] <;> simp [he]
  · intro he
    simp [he]
  · simp
  · rw [List.forall₂_map_right_iff, List.forall₂_same]
    intro mg hmg
    exact perMatch_eq _ n hlen mg (hall mg hmg)
  · exact perMatch_eq _ n hlen _ hsub

/-- Instance of C8: the test pattern `nestedrx` on
`"hello, world! hi, cosmos!"`, two matches. -/
theorem FindAllGroups_perMatch_witness :
    ∃ (res : Option (List GoMap)) (maps : List GoMap) (m : GoMap),
      FindAllGroups nestedrx (str "hello, world! hi, cosmos!") = .ok (res, true) ∧
      res.getD [] = maps ∧
      (nestedrx.FindAllStringSubmatch (str "hello, world! hi, cosmos!") ≠ [] → res = some maps) ∧
      maps.length = (nestedrx.FindAllStringSubmatch (str "hello, world! hi, cosmos!")).length ∧
      List.Forall₂
        (fun mg gm =>
          (sliceFrom mg 1 >>= fun vs =>
            FindGroups.loop (nestedrx.SubexpNames.drop 1) 0 vs []) = .ok gm)
        (nestedrx.FindAllStringSubmatch (str "hello, world! hi, cosmos!")) maps ∧
      FindGroups nestedrx (str "hello, world! hi, cosmos!") = .ok (some m, true) ∧
      (sliceFrom (nestedrx.FindStringSubmatch (str "hello, world! hi, cosmos!")) 1 >>= fun vs =>
        FindGroups.loop (nestedrx.SubexpNames.drop 1) 0 vs []) = .ok m :=
  FindAllGroups_perMatch nestedrx (str "hello, world! hi, cosmos!") 2
    (by decide) (by decide) (by decide) (by decide) (by decide)

/-- C9: for a pattern that declares zero groups and every subject,
`FindGroups` and `FindAllGroups` both return the found flag `matches(s)`
together with a nil result. -/
theorem zero_groups_nil (r : Regexp) (s : GoString)
    (hnames : r.SubexpNames.length = 1) :
    FindGroups r s = .ok (none, r.MatchString s) ∧
    FindAllGroups r s = .ok (none, r.MatchString s) :=
  ⟨FindGroups_zero_groups r s hnames, FindAllGroups_zero_groups r s hnames⟩

/-- Instances of C9: the test pattern `simplerx` (no groups) on a subject it
matches and on one it does not. -/
theorem zero_groups_nil_witness :
    (FindGroups simplerx (str "hello, world!") = .ok (none, true) ∧
      FindAllGroups simplerx (str "hello, world!") = .ok (none, true)) ∧
    (FindGroups simplerx (str "hello") = .ok (none, false) ∧
      FindAllGroups simplerx (str "hello") = .ok (none, false)) :=
  ⟨zero_groups_nil simplerx (str "hello, world!") (by decide),
   zero_groups_nil simplerx (str "hello") (by decide)⟩

/-- C10: for every pattern (with `n` declared groups) and subject, each of
`FindMatch`, `FindAllMatches`, `FindGroups` and `FindAllGroups` returns, and
its found flag is `true` exactly when the pattern matches the subject; when
it does not match, `FindMatch` returns `("", false)` and the other three
return `(nil, false)`.  For a matching subject the engine reports one text
per declared group plus the whole match. -/
theorem found_iff_matches (r : Regexp) (s : GoString) (n : Nat)
    (hnames : r.SubexpNames.length = n + 1)
    (hsub : r.MatchString s = true → (r.FindStringSubmatch s).length = n + 1)
    (hall : r.MatchString s = true → ∀ mg ∈ r.FindAllStringSubmatch s, mg.length = n + 1) :
    ((FindMatch r s).2 = true ↔ r.MatchString s = true) ∧
    ((FindAllMatches r s).2 = true ↔ r.MatchString s = true) ∧
    (∃ res found, FindGroups r s = .ok (res, found) ∧
      (found = true ↔ r.MatchString s = true)) ∧
    (∃ res found, FindAllGroups r s = .ok (res, found) ∧
      (found = true ↔ r.MatchString s = true)) ∧
    (r.MatchString s = false →
      FindMatch r s = ([], false) ∧ FindAllMatches r s = (none, false) ∧
      FindGroups r s = .ok (none, false) ∧ FindAllGroups r s = .ok (none, false)) := by
  cases hm : r.MatchString s
  · refine ⟨by simp [FindMatch, hm], by simp [FindAllMatches, hm],
      ⟨none, false, FindGroups_no_match r s hm, by simp⟩,
      ⟨none, false, FindAllGroups_no_match r s hm, by simp⟩, ?_⟩
    intro _
    exact ⟨by simp [FindMatch, hm], by simp [FindAllMatches, hm],
      FindGroups_no_match r s hm, FindAllGroups_no_match r s hm⟩
  · refine ⟨by simp [FindMatch, hm], by simp [FindAllMatches, hm], ?_, ?_, by simp⟩
    · cases n with
      | zero =>
        exact ⟨none, true, by rw [FindGroups_zero_groups r s hnames, hm], by simp⟩
      | succ n =>
        exact ⟨_, true, FindGroups_eq r s (n + 1) (by omega) hm hnames (hsub hm), by simp⟩
    · cases n with
      | zero =>
        exact ⟨none, true, by rw [FindAllGroups_zero_groups r s hnames, hm], by simp⟩
      | succ n =>
        exact ⟨_, true, FindAllGroups_eq r s (n + 1) (by omega) hm hnames (hall hm), by simp⟩

/-- Instances of C10: the test pattern `regularx` on the subject `"hello"`,
which it does not match, and on `"pre hello, world! post"`, which it matches. -/
theorem found_iff_matches_witness :
    (FindMatch regularx (str "hello") = ([], false) ∧
      FindAllMatches regularx (str "hello") = (none, false) ∧
      FindGroups regularx (str "hello") = .ok (none, false) ∧
      FindAllGroups regularx (str "hello") = .ok (none, false)) ∧
    ((FindMatch regularx (str "pre hello, world! post")).2 = true ↔
      regularx.MatchString (str "pre hello, world! post") = true) ∧
    (∃ res found, FindGroups regularx (str "pre hello, world! post") = .ok (res, found) ∧
      (found = true ↔ regularx.MatchString (str "pre hello, world! post") = true)) :=
  ⟨(found_iff_matches regularx (str "hello") 2 (by decide) (by decide) (by decide)).2.2.2.2
      (by decide),
   (found_iff_matches regularx (str "pre hello, world! post") 2
      (by decide) (by decide) (by decide)).1,
   (found_iff_matches regularx (str "pre hello, world! post") 2
      (by decide) (by decide) (by decide)).2.2.1⟩

/-- C11: for a pattern that declares zero groups, a subject it matches (the
engine reporting, per match, the overall span only) and a non-nil callback
`f`, `ReplaceAllGroupsFunc` calls `f` once per match with an empty map, and
the result is the subject with each match replaced by `f` of the empty map. -/
theorem ReplaceAllGroupsFunc_zero_groups (r : Regexp) (s : GoString) (f : GoMap → GoString)
    (spans : List (Nat × Nat))
    (hmatch : r.MatchString s = true)
    (hnames : r.SubexpNames.length = 1)
    (hms : r.FindAllSubmatchIndex s = spans.map fun sp => [(sp.1 : Int), (sp.2 : Int)])
    (hord : spansOrdered s.length 0 spans = true) :
    ReplaceAllGroupsFunc.calls r s (some f) = .ok (spans.map fun _ => []) ∧
    ReplaceAllGroupsFunc r s (some f)
      = .ok (spliced s 0 (spans.map fun sp => (sp.1, sp.2, f []))) := by
  have hrun := run_eq r s f 0 (spans.map fun sp => (sp.1, sp.2, [])) hmatch hnames
    (by rw [hms, List.map_map]; rfl)
    (by
      intro m hm
      obtain ⟨sp, _, rfl⟩ := List.mem_map.1 hm
      rfl)
    (by
      rw [List.map_map]
      have e : ((fun m : Nat × Nat × List Int => (m.1, m.2.1)) ∘
          fun sp : Nat × Nat => (sp.1, sp.2, ([] : List Int))) = id := by
        funext sp; rfl
      rw [e, List.map_id]
      exact hord)
  have hnil : ∀ ids : List GoString, GoMap.setAll [] (ids.zip (groupValues s [])) = [] := by
    intro ids
    simp [groupValues, GoMap.setAll]
  simp only [List.map_map, Function.comp_def, hnil] at hrun
  constructor
  · simp [ReplaceAllGroupsFunc.calls, hrun, Except.map]
  · simp [ReplaceAllGroupsFunc, hrun, Except.map]

/-- Instance of C11: the test "no groups" of the repository (pattern
`simplerx`, the whole subject `"hello, world!"` is one match, callback
`m["name"] + ", " + m["greeting"] + "."`); the result is `", ."`. -/
theorem ReplaceAllGroupsFunc_zero_groups_witness :
    ReplaceAllGroupsFunc.calls simplerx (str "hello, world!") (some replaceNameGreeting)
      = .ok [[]] ∧
    ReplaceAllGroupsFunc simplerx (str "hello, world!") (some replaceNameGreeting)
      = .ok (str ", .") :=
  ReplaceAllGroupsFunc_zero_groups simplerx (str "hello, world!") replaceNameGreeting
    [(0, 13)] (by decide) (by decide) (by decide) (by decide)

/-- C12, counterexample: the pattern `(?P<bob>a)|(?P<bob>b)` matches `"b"`
with the span of group 0 unset (`-1, -1`); group 0 resolves to `"bob"`, yet
the map passed to the callback holds `"b"`, not `""`, under `"bob"`. -/
theorem ReplaceAllGroupsFunc_unset_counterexample :
    altrx.MatchString (str "b") = true ∧
    altrx.FindAllSubmatchIndex (str "b") = [[0, 1, -1, -1, 0, 1]] ∧
    getGroupName (altrx.SubexpNames.drop 1) 0 = .ok (str "bob") ∧
    ReplaceAllGroupsFunc.calls altrx (str "b") (some replaceNameGreeting)
      = .ok [[(str "bob", str "b")]] ∧
    GoMap.lookup [(str "bob", str "b")] (str "bob") ≠ some [] := by
  decide

/-- C12, as amended: for every match processed by `ReplaceAllGroupsFunc` and
every declared group index `i`, the map passed to the callback contains the
key `getGroupName(names, i)`; when no later group resolves to the same
identifier, the value under it is `""` if the reported span of group `i` is
unset (start or end equal to `-1`) and `s[p:q]` if the span is `[p, q)`. -/
theorem ReplaceAllGroupsFunc_group_values (r : Regexp) (s : GoString)
    (f : GoMap → GoString) (n : Nat) (ms : List (Nat × Nat × List Int))
    (hmatch : r.MatchString s = true)
    (hnames : r.SubexpNames.length = n + 1)
    (hms : r.FindAllSubmatchIndex s = ms.map spanList)
    (hgroups : ∀ m ∈ ms, groupSpansOK s n m.2.2 = true)
    (hord : spansOrdered s.length 0 (ms.map fun m => (m.1, m.2.1)) = true) :
    ∃ maps : List GoMap,
      ReplaceAllGroupsFunc.calls r s (some f) = .ok maps ∧
      List.Forall₂
        (fun m gm => ∀ (i : Nat) (k : GoString) (p q : Int),
          getGroupName (r.SubexpNames.drop 1) i = .ok k →
          (spanList m)[2 * i + 2]? = some p → (spanList m)[2 * i + 3]? = some q →
          k ∈ gm.keys ∧
          ((∀ j, i < j → j < n → getGroupName (r.SubexpNames.drop 1) j ≠ .ok k) →
            ((p = -1 ∨ q = -1) → gm.lookup k = some []) ∧
            (¬ (p = -1 ∨ q = -1) → ∃ v, slice s p q = .ok v ∧ gm.lookup k = some v)))
        ms maps := by
  obtain ⟨_, hlen⟩ := sliceFrom_one_eq_ok r.SubexpNames n hnames
  refine ⟨_, calls_eq r s f n ms hmatch hnames hms hgroups hord, ?_⟩
  rw [List.forall₂_map_right_iff, List.forall₂_same]
  intro m hm i k p q hk hp hq
  have hp1 : m.2.2[2 * i]? = some p := by
    simpa [spanList] using hp
  have hq1 : m.2.2[2 * i + 1]? = some q := by
    simpa [spanList] using hq
  obtain ⟨hi, hval, hslice⟩ := groupValues_getElem? s n m.2.2 i p q (hgroups m hm) hp1 hq1
  obtain ⟨hkey, hlook⟩ := groupMap_lookup (r.SubexpNames.drop 1) n hlen (groupValues s m.2.2)
    (groupValues_length s n _ (hgroups m hm)) i k _ hi hk hval
  refine ⟨hkey, fun hlast => ⟨?_, ?_⟩⟩
  · intro hu
    rw [hlook hlast, if_pos hu]
  · intro hu
    refine ⟨_, hslice hu, ?_⟩
    rw [hlook hlast, if_neg hu]

/-- Instance of C12 as amended: the pattern `(?P<x>a)|(?P<y>b)` on `"b"`;
group `x` is unset and its key holds `""`, group `y` has the span `[0, 1)`. -/
theorem ReplaceAllGroupsFunc_group_values_witness :
    ∃ maps : List GoMap,
      ReplaceAllGroupsFunc.calls optrx (str "b") (some replaceNameGreeting) = .ok maps ∧
      List.Forall₂
        (fun m gm => ∀ (i : Nat) (k : GoString) (p q : Int),
          getGroupName (optrx.SubexpNames.drop 1) i = .ok k →
          (spanList m)[2 * i + 2]? = some p → (spanList m)[2 * i + 3]? = some q →
          k ∈ gm.keys ∧
          ((∀ j, i < j → j < 2 → getGroupName (optrx.SubexpNames.drop 1) j ≠ .ok k) →
            ((p = -1 ∨ q = -1) → gm.lookup k = some []) ∧
            (¬ (p = -1 ∨ q = -1) →
              ∃ v, slice (str "b") p q = .ok v ∧ gm.lookup k = some v)))
        [((0 : Nat), (1 : Nat), ([-1, -1, 0, 1] : List Int))] maps :=
  ReplaceAllGroupsFunc_group_values optrx (str "b") replaceNameGreeting 2
    [(0, 1, [-1, -1, 0, 1])] (by decide) (by decide) (by decide) (by decide) (by decide)

/-- C13: for a pattern with `n ≥ 1` declared groups there is one list of
identifiers `ids`, with `ids[i] = getGroupName(names, i)` computed from the
declared names only, such that `FindGroups`, `FindAllGroups` (for every match)
and `ReplaceAllGroupsFunc` (for every match) all build their map by storing,
for `i = 0, ..., n-1` in turn, the capture of group `i` under `ids[i]`. -/
theorem identifier_stable (r : Regexp) (s : GoString) (f : GoMap → GoString) (n : Nat)
    (ms : List (Nat × Nat × List Int))
    (hn : 1 ≤ n)
    (hmatch : r.MatchString s = true)
    (hnames : r.SubexpNames.length = n + 1)
    (hsub : (r.FindStringSubmatch s).length = n + 1)
    (hall : ∀ mg ∈ r.FindAllStringSubmatch s, mg.length = n + 1)
    (hms : r.FindAllSubmatchIndex s = ms.map spanList)
    (hgroups : ∀ m ∈ ms, groupSpansOK s n m.2.2 = true)
    (hord : spansOrdered s.length 0 (ms.map fun m => (m.1, m.2.1)) = true) :
    ∃ ids : List GoString,
      (List.range n).map (getGroupName (r.SubexpNames.drop 1)) = ids.map Except.ok ∧
      FindGroups r s
        = .ok (some (GoMap.setAll [] (ids.zip ((r.FindStringSubmatch s).drop 1))), true) ∧
      FindAllGroups r s
        = .ok (if r.FindAllStringSubmatch s = [] then none
               else some ((r.FindAllStringSubmatch s).map fun mg =>
                 GoMap.setAll [] (ids.zip (mg.drop 1))), true) ∧
      ReplaceAllGroupsFunc.calls r s (some f)
        = .ok (ms.map fun m => GoMap.setAll [] (ids.zip (groupValues s m.2.2))) := by
  obtain ⟨_, hlen⟩ := sliceFrom_one_eq_ok r.SubexpNames n hnames
  have hids := map_getGroupName_range (r.SubexpNames.drop 1)
  rw [hlen] at hids
  exact ⟨identifiers (r.SubexpNames.drop 1), hids,
    FindGroups_eq r s n hn hmatch hnames hsub,
    FindAllGroups_eq r s n hn hmatch hnames hall,
    calls_eq r s f n ms hmatch hnames hms hgroups hord⟩

/-- Instance of C13: the test pattern `nestedrx` on
`"hello, world! hi, cosmos!"`. -/
theorem identifier_stable_witness :
    ∃ ids : List GoString,
      (List.range 2).map (getGroupName (nestedrx.SubexpNames.drop 1)) = ids.map Except.ok ∧
      FindGroups nestedrx (str "hello, world! hi, cosmos!")
        = .ok (some (GoMap.setAll [] (ids.zip
            ((nestedrx.FindStringSubmatch (str "hello, world! hi, cosmos!")).drop 1))), true) ∧
      FindAllGroups nestedrx (str "hello, world! hi, cosmos!")
        = .ok (if nestedrx.FindAllStringSubmatch (str "hello, world! hi, cosmos!") = [] then none
               else some ((nestedrx.FindAllStringSubmatch (str "hello, world! hi, cosmos!")).map
                 fun mg => GoMap.setAll [] (ids.zip (mg.drop 1))), true) ∧
      ReplaceAllGroupsFunc.calls nestedrx (str "hello, world! hi, cosmos!")
          (some replaceNameGreeting)
        = .ok (([((0 : Nat), (13 : Nat), ([0, 13, 7, 12] : List Int)),
                 (14, 25, [14, 25, 18, 24])]).map
            fun m => GoMap.setAll []
              (ids.zip (groupValues (str "hello, world! hi, cosmos!") m.2.2))) :=
  identifier_stable nestedrx (str "hello, world! hi, cosmos!") replaceNameGreeting 2
    [(0, 13, [0, 13, 7, 12]), (14, 25, [14, 25, 18, 24])]
    (by decide) (by decide) (by decide) (by decide) (by decide) (by decide) (by decide)
    (by decide)

/-- C14: for a pattern with `n ≥ 1` declared groups and a subject it matches,
given that the engine's first match is the first match of its all-matches
scan, the map returned by `FindGroups` is the first element of the sequence
returned by `FindAllGroups`. -/
theorem FindGroups_first_of_all (r : Regexp) (s : GoString) (n : Nat)
    (hn : 1 ≤ n)
    (hmatch : r.MatchString s = true)
    (hnames : r.SubexpNames.length = n + 1)
    (hall : ∀ mg ∈ r.FindAllStringSubmatch s, mg.length = n + 1)
    (hfirst : (r.FindAllStringSubmatch s).head? = some (r.FindStringSubmatch s)) :
    ∃ (m : GoMap) (rest : List GoMap),
      FindGroups r s = .ok (some m, true) ∧
      FindAllGroups r s = .ok (some (m :: rest), true) := by
  cases hl : r.FindAllStringSubmatch s with
  | nil => rw [hl] at hfirst; cases hfirst
  | cons mg rest =>
    rw [hl] at hfirst
    simp only [List.head?_cons, Option.some.injEq] at hfirst
    have hsub : (r.FindStringSubmatch s).length = n + 1 := by
      rw [← hfirst]
      exact hall mg (by rw [hl]; exact List.mem_cons_self _ _)
    refine ⟨_, rest.map fun mg1 =>
        GoMap.setAll [] ((identifiers (r.SubexpNames.drop 1)).zip (mg1.drop 1)),
      FindGroups_eq r s n hn hmatch hnames hsub, ?_⟩
    rw [FindAllGroups_eq r s n hn hmatch hnames hall, hl, ← hfirst]
    simp

/-- Instance of C14: the test pattern `nestedrx` on
`"hello, world! hi, cosmos!"` (two matches). -/
theorem FindGroups_first_of_all_witness :
    ∃ (m : GoMap) (rest : List GoMap),
      FindGroups nestedrx (str "hello, world! hi, cosmos!") = .ok (some m, true) ∧
      FindAllGroups nestedrx (str "hello, world! hi, cosmos!") = .ok (some (m :: rest), true) :=
  FindGroups_first_of_all nestedrx (str "hello, world! hi, cosmos!") 2
    (by decide) (by decide) (by decide) (by decide) (by decide)

/-- C15: on a subject the pattern matches, `FindMatch` returns the engine's
first whole-match text with `found = true` and `FindAllMatches` returns the
engine's sequence of whole-match texts with `found = true`; a second pattern
that agrees on the whole-match answers (whatever its groups) gives the same
results. -/
theorem plain_matches (r : Regexp) (s : GoString)
    (hmatch : r.MatchString s = true) :
    FindMatch r s = (r.FindString s, true) ∧
    FindAllMatches r s = (r.FindAllString s, true) ∧
    ∀ r2 : Regexp, r2.MatchString s = r.MatchString s → r2.FindString s = r.FindString s →
      r2.FindAllString s = r.FindAllString s →
      FindMatch r2 s = FindMatch r s ∧ FindAllMatches r2 s = FindAllMatches r s := by
  refine ⟨by simp [FindMatch, hmatch], by simp [FindAllMatches, hmatch], ?_⟩
  intro r2 h1 h2 h3
  simp [FindMatch, FindAllMatches, h1, h2, h3]

/-- Instance of C15: on `"hello, world!"` the pattern `digitrx` (two groups)
and the pattern `simplerx` (no groups) give the same plain matches. -/
theorem plain_matches_witness :
    FindMatch digitrx (str "hello, world!") = (str "hello, world!", true) ∧
    FindAllMatches digitrx (str "hello, world!") = (some [str "hello, world!"], true) ∧
    FindMatch simplerx (str "hello, world!") = FindMatch digitrx (str "hello, world!") ∧
    FindAllMatches simplerx (str "hello, world!")
      = FindAllMatches digitrx (str "hello, world!") :=
  ⟨(plain_matches digitrx (str "hello, world!") (by decide)).1,
   (plain_matches digitrx (str "hello, world!") (by decide)).2.1,
   (plain_matches digitrx (str "hello, world!") (by decide)).2.2 simplerx
      (by decide) (by decide) (by decide)⟩

/-- C16: under the engine contract (for a matching subject: one text, and
one span pair, per declared group plus the whole match; overall spans in
bounds, ordered and non-overlapping; every set group span inside the subject)
none of `FindGroups`, `FindAllGroups`, `ReplaceAllGroupsFunc` panics.  A call
`getGroupName(names, idx)` succeeds exactly when `idx < len(names)` and a
slice `s[lo:hi]`, `s[lo:]` exactly when it is in bounds with `lo ≤ hi`, and
any failing call makes the enclosing operation fail, so all index and slice
operations of these runs are in range. -/
theorem no_panic (r : Regexp) (s : GoString) (replace : Option (GoMap → GoString)) (n : Nat)
    (ms : List (Nat × Nat × List Int))
    (hnames : r.SubexpNames.length = n + 1)
    (hsub : r.MatchString s = true → (r.FindStringSubmatch s).length = n + 1)
    (hall : r.MatchString s = true → ∀ mg ∈ r.FindAllStringSubmatch s, mg.length = n + 1)
    (hms : r.MatchString s = true → r.FindAllSubmatchIndex s = ms.map spanList)
    (hgroups : ∀ m ∈ ms, groupSpansOK s n m.2.2 = true)
    (hord : spansOrdered s.length 0 (ms.map fun m => (m.1, m.2.1)) = true) :
    (∃ x, FindGroups r s = .ok x) ∧
    (∃ x, FindAllGroups r s = .ok x) ∧
    (∃ x, ReplaceAllGroupsFunc r s replace = .ok x) ∧
    (∀ idx, (∃ k, getGroupName (r.SubexpNames.drop 1) idx = .ok k) ↔ idx < n) ∧
    (∀ lo hi, (∃ v, slice s lo hi = .ok v) ↔ (0 ≤ lo ∧ lo ≤ hi ∧ hi ≤ (s.length : Int))) ∧
    (∀ lo, (∃ v, sliceTail s lo = .ok v) ↔ (0 ≤ lo ∧ lo ≤ (s.length : Int))) := by
  obtain ⟨_, hlen⟩ := sliceFrom_one_eq_ok r.SubexpNames n hnames
  refine ⟨?_, ?_, ?_, ?_, slice_ok_iff s, sliceTail_ok_iff s⟩
  · cases hm : r.MatchString s with
    | false => exact ⟨_, FindGroups_no_match r s hm⟩
    | true =>
      cases n with
      | zero => exact ⟨_, FindGroups_zero_groups r s hnames⟩
      | succ n => exact ⟨_, FindGroups_eq r s (n + 1) (by omega) hm hnames (hsub hm)⟩
  · cases hm : r.MatchString s with
    | false => exact ⟨_, FindAllGroups_no_match r s hm⟩
    | true =>
      cases n with
      | zero => exact ⟨_, FindAllGroups_zero_groups r s hnames⟩
      | succ n => exact ⟨_, FindAllGroups_eq r s (n + 1) (by omega) hm hnames (hall hm)⟩
  · cases hm : r.MatchString s with
    | false =>
      refine ⟨s, ?_⟩
      simp [ReplaceAllGroupsFunc, ReplaceAllGroupsFunc.run, hm, Except.map]
    | true =>
      cases replace with
      | none =>
        refine ⟨s, ?_⟩
        simp [ReplaceAllGroupsFunc, ReplaceAllGroupsFunc.run, hm, Except.map]
      | some f =>
        rw [ReplaceAllGroupsFunc, run_eq r s f n ms hm hnames (hms hm) hgroups hord]
        exact ⟨_, rfl⟩
  · intro idx
    rw [getGroupName_ok_iff, hlen]

/-- Instance of C16: the pattern `(?P<x>a)|(?P<y>b)` on `"b"` (one group
unset) with the callback of the tests. -/
theorem no_panic_witness :
    (∃ x, FindGroups optrx (str "b") = .ok x) ∧
    (∃ x, FindAllGroups optrx (str "b") = .ok x) ∧
    (∃ x, ReplaceAllGroupsFunc optrx (str "b") (some replaceNameGreeting) = .ok x) ∧
    (∀ idx, (∃ k, getGroupName (optrx.SubexpNames.drop 1) idx = .ok k) ↔ idx < 2) ∧
    (∀ lo hi, (∃ v, slice (str "b") lo hi = .ok v) ↔
      (0 ≤ lo ∧ lo ≤ hi ∧ hi ≤ ((str "b").length : Int))) ∧
    (∀ lo, (∃ v, sliceTail (str "b") lo = .ok v) ↔ (0 ≤ lo ∧ lo ≤ ((str "b").length : Int))) :=
  no_panic optrx (str "b") (some replaceNameGreeting) 2 [(0, 1, [-1, -1, 0, 1])]
    (by decide) (by decide) (by decide) (by decide) (by decide) (by decide)

/-- C17: for a pattern with `n ≥ 1` declared groups and a subject it matches,
given that the engine's string-level submatches agree with its span-level
ones (`submatchTexts`), the maps `ReplaceAllGroupsFunc` passes to its callback
are, element by element and in the same order, the maps returned by
`FindAllGroups`. -/
theorem calls_eq_FindAllGroups (r : Regexp) (s : GoString) (f : GoMap → GoString) (n : Nat)
    (ms : List (Nat × Nat × List Int))
    (hn : 1 ≤ n)
    (hmatch : r.MatchString s = true)
    (hnames : r.SubexpNames.length = n + 1)
    (hms : r.FindAllSubmatchIndex s = ms.map spanList)
    (hgroups : ∀ m ∈ ms, groupSpansOK s n m.2.2 = true)
    (hord : spansOrdered s.length 0 (ms.map fun m => (m.1, m.2.1)) = true)
    (hagree : r.FindAllStringSubmatch s = ms.map fun m => submatchTexts s (spanList m)) :
    ∃ (maps : List GoMap) (res : Option (List GoMap)),
      ReplaceAllGroupsFunc.calls r s (some f) = .ok maps ∧
      FindAllGroups r s = .ok (res, true) ∧
      res.getD [] = maps ∧
      (ms ≠ [] → res = some maps) := by
  have hdrop : ∀ m ∈ ms, (submatchTexts s (spanList m)).drop 1 = groupValues s m.2.2 := by
    intro m hm
    rw [← submatchTexts_eq_groupValues s n _ (hgroups m hm)]
    rfl
  have hall : ∀ mg ∈ r.FindAllStringSubmatch s, mg.length = n + 1 := by
    intro mg hmg
    rw [hagree] at hmg
    obtain ⟨m, hm, rfl⟩ := List.mem_map.1 hmg
    have h1 : (submatchTexts s (spanList m)).length
        = ((submatchTexts s (spanList m)).drop 1).length + 1 := by
      simp [spanList, submatchTexts]
    rw [h1, hdrop m hm, groupValues_length s n _ (hgroups m hm)]
  have hmaps : ((ms.map fun m => submatchTexts s (spanList m)).map fun mg =>
        GoMap.setAll [] ((identifiers (r.SubexpNames.drop 1)).zip (mg.drop 1)))
      = ms.map fun m => GoMap.setAll []
          ((identifiers (r.SubexpNames.drop 1)).zip (groupValues s m.2.2)) := by
    rw [List.map_map]
    apply List.map_congr_left
    intro m hm
    simp only [Function.comp_apply, hdrop m hm]
  refine ⟨_, _, calls_eq r s f n ms hmatch hnames hms hgroups hord,
    FindAllGroups_eq r s n hn hmatch hnames hall, ?_, ?_⟩
  · rw [hagree, hmaps]
    cases ms with
    | nil => rfl
    | cons m rest => simp
  · intro hne
    rw [hagree, hmaps]
    cases ms with
    | nil => exact absurd rfl hne
    | cons m rest => simp

/-- Instance of C17: the pattern `(?P<x>a)|(?P<y>b)` on `"b"`, where the
group `x` is unset at span level and `""` at string level. -/
theorem calls_eq_FindAllGroups_witness :
    ∃ (maps : List GoMap) (res : Option (List GoMap)),
      ReplaceAllGroupsFunc.calls optrx (str "b") (some replaceNameGreeting) = .ok maps ∧
      FindAllGroups optrx (str "b") = .ok (res, true) ∧
      res.getD [] = maps ∧
      ([((0 : Nat), (1 : Nat), ([-1, -1, 0, 1] : List Int))] ≠ [] → res = some maps) :=
  calls_eq_FindAllGroups optrx (str "b") replaceNameGreeting 2 [(0, 1, [-1, -1, 0, 1])]
    (by decide) (by decide) (by decide) (by decide) (by decide) (by decide) (by decide)

/-- C19: under the hypotheses of C1, the length of the result of
`ReplaceAllGroupsFunc` is `len(s) - sum_i (b_i - a_i) + sum_i len(f(m_i))`,
where `m_i` is the group map of match `i` (the captured texts of its groups
under the resolved identifiers), the map the callback is called with; the
matched spans together are no longer than the subject. -/
theorem ReplaceAllGroupsFunc_length (r : Regexp) (s : GoString) (f : GoMap → GoString)
    (n : Nat) (ms : List (Nat × Nat × List Int))
    (hmatch : r.MatchString s = true)
    (hnames : r.SubexpNames.length = n + 1)
    (hms : r.FindAllSubmatchIndex s = ms.map spanList)
    (hgroups : ∀ m ∈ ms, groupSpansOK s n m.2.2 = true)
    (hord : spansOrdered s.length 0 (ms.map fun m => (m.1, m.2.1)) = true) :
    ∃ out : GoString,
      ReplaceAllGroupsFunc r s (some f) = .ok out ∧
      ReplaceAllGroupsFunc.calls r s (some f)
        = .ok (ms.map fun m => GoMap.setAll []
            ((identifiers (r.SubexpNames.drop 1)).zip (groupValues s m.2.2))) ∧
      (ms.map fun m => m.2.1 - m.1).sum ≤ s.length ∧
      out.length
        = s.length - (ms.map fun m => m.2.1 - m.1).sum
          + (ms.map fun m => (f (GoMap.setAll []
              ((identifiers (r.SubexpNames.drop 1)).zip (groupValues s m.2.2)))).length).sum := by
  have hrun := run_eq r s f n ms hmatch hnames hms hgroups hord
  have hlen := spliced_length s (ms.map fun m => (m.1, m.2.1,
      f (GoMap.setAll [] ((identifiers (r.SubexpNames.drop 1)).zip (groupValues s m.2.2))))) 0
    (by rw [List.map_map]; exact hord)
  have hsum := spansOrdered_sum_le s.length _ 0 hord
  simp only [List.map_map, Function.comp_def, Nat.sub_zero] at hlen hsum
  refine ⟨spliced s 0 (ms.map fun m => (m.1, m.2.1,
      f (GoMap.setAll [] ((identifiers (r.SubexpNames.drop 1)).zip (groupValues s m.2.2))))),
    by rw [ReplaceAllGroupsFunc, hrun]; rfl,
    by rw [ReplaceAllGroupsFunc.calls, hrun]; rfl, ?_, ?_⟩
  · omega
  · omega

/-- Instance of C19: the repository test "nested groups, multiple matches"
(pattern `nestedrx` on the 25 bytes of `"hello, world! hi, cosmos!"`): the
two matches have 13 and 11 bytes, their replacements
`"world, hello, world!."` and `"cosmos, hi, cosmos!."` have 21 and 20, and
the result has `25 - (13 + 11) + (21 + 20) = 42` bytes. -/
theorem ReplaceAllGroupsFunc_length_witness :
    ∃ out : GoString,
      ReplaceAllGroupsFunc nestedrx (str "hello, world! hi, cosmos!")
        (some replaceNameGreeting) = .ok out ∧
      ReplaceAllGroupsFunc.calls nestedrx (str "hello, world! hi, cosmos!")
          (some replaceNameGreeting)
        = .ok [[(str "greeting", str "hello, world!"), (str "name", str "world")],
               [(str "greeting", str "hi, cosmos!"), (str "name", str "cosmos")]] ∧
      (13 + 11 : Nat) ≤ 25 ∧
      out.length = 25 - (13 + 11) + (21 + 20) :=
  ReplaceAllGroupsFunc_length nestedrx (str "hello, world! hi, cosmos!") replaceNameGreeting 2
    [(0, 13, [0, 13, 7, 12]), (14, 25, [14, 25, 18, 24])]
    (by decide) (by decide) (by decide) (by decide) (by decide)

/-- C18: for a pattern whose `n ≥ 1` declared names are such that the
non-empty names are pairwise distinct (two indices with one declared name are
equal, or the name is empty) and no name is the decimal text of `j + 1` for
an unnamed group at index `j`, `getGroupName` is injective on
`0..n-1`; consequently (under the engine contract, on a matching subject)
every map built by `FindGroups`, `FindAllGroups` and `ReplaceAllGroupsFunc`
has exactly `n` entries and holds, under `getGroupName(names, i)`, the capture
of group `i` itself. -/
theorem injective_identifiers (r : Regexp) (s : GoString) (f : GoMap → GoString) (n : Nat)
    (ms : List (Nat × Nat × List Int))
    (hn : 1 ≤ n)
    (hmatch : r.MatchString s = true)
    (hnames : r.SubexpNames.length = n + 1)
    (hsub : (r.FindStringSubmatch s).length = n + 1)
    (hall : ∀ mg ∈ r.FindAllStringSubmatch s, mg.length = n + 1)
    (hms : r.FindAllSubmatchIndex s = ms.map spanList)
    (hgroups : ∀ m ∈ ms, groupSpansOK s n m.2.2 = true)
    (hord : spansOrdered s.length 0 (ms.map fun m => (m.1, m.2.1)) = true)
    (hdistinct : ∀ i, i < n → ∀ j, j < n →
      (r.SubexpNames.drop 1)[i]? = (r.SubexpNames.drop 1)[j]? →
      i = j ∨ (r.SubexpNames.drop 1)[i]? = some [])
    (hnodigit : ∀ i, i < n → ∀ j, j < n →
      (r.SubexpNames.drop 1)[j]? = some [] →
      (r.SubexpNames.drop 1)[i]? ≠ some (Itoa ((j : Int) + 1))) :
    (∀ i j, i < n → j < n →
      getGroupName (r.SubexpNames.drop 1) i = getGroupName (r.SubexpNames.drop 1) j → i = j) ∧
    (∃ m, FindGroups r s = .ok (some m, true) ∧ m.len = n ∧
      ∀ i k, i < n → getGroupName (r.SubexpNames.drop 1) i = .ok k →
        ∃ v, (r.FindStringSubmatch s)[i + 1]? = some v ∧ m.lookup k = some v) ∧
    (∃ res, FindAllGroups r s = .ok (res, true) ∧
      List.Forall₂
        (fun mg m => m.len = n ∧
          ∀ i k, i < n → getGroupName (r.SubexpNames.drop 1) i = .ok k →
            ∃ v, mg[i + 1]? = some v ∧ m.lookup k = some v)
        (r.FindAllStringSubmatch s) (res.getD [])) ∧
    (∃ maps, ReplaceAllGroupsFunc.calls r s (some f) = .ok maps ∧
      List.Forall₂
        (fun m gm => gm.len = n ∧
          ∀ i k, i < n → getGroupName (r.SubexpNames.drop 1) i = .ok k →
            ∃ v, (groupValues s m.2.2)[i]? = some v ∧ gm.lookup k = some v)
        ms maps) := by
  obtain ⟨_, hlen⟩ := sliceFrom_one_eq_ok r.SubexpNames n hnames
  have hinj := getGroupName_inj (r.SubexpNames.drop 1) n hlen hdistinct hnodigit
  have hdroplen : ∀ mg : List GoString, mg.length = n + 1 → (mg.drop 1).length = n := by
    intro mg h
    rw [List.length_drop, h]
    omega
  have hdropget : ∀ (mg : List GoString) (i : Nat), (mg.drop 1)[i]? = mg[i + 1]? := by
    intro mg i
    rw [List.getElem?_drop, Nat.add_comm]
  refine ⟨hinj, ⟨_, FindGroups_eq r s n hn hmatch hnames hsub, ?_⟩,
    ⟨_, FindAllGroups_eq r s n hn hmatch hnames hall, ?_⟩,
    ⟨_, calls_eq r s f n ms hmatch hnames hms hgroups hord, ?_⟩⟩
  · obtain ⟨h1, h2⟩ := groupMap_of_injective (r.SubexpNames.drop 1) n hlen hinj
      ((r.FindStringSubmatch s).drop 1) (hdroplen _ hsub)
    refine ⟨h1, ?_⟩
    intro i k hi hk
    obtain ⟨v, hv, hl⟩ := h2 i k hi hk
    exact ⟨v, by rw [← hdropget]; exact hv, hl⟩
  · have hgen : List.Forall₂
        (fun mg m => m.len = n ∧
          ∀ i k, i < n → getGroupName (r.SubexpNames.drop 1) i = .ok k →
            ∃ v, mg[i + 1]? = some v ∧ m.lookup k = some v)
        (r.FindAllStringSubmatch s)
        ((r.FindAllStringSubmatch s).map fun mg =>
          GoMap.setAll [] ((identifiers (r.SubexpNames.drop 1)).zip (mg.drop 1))) := by
      rw [List.forall₂_map_right_iff, List.forall₂_same]
      intro mg hmg
      obtain ⟨h1, h2⟩ := groupMap_of_injective (r.SubexpNames.drop 1) n hlen hinj
        (mg.drop 1) (hdroplen _ (hall mg hmg))
      refine ⟨h1, ?_⟩
      intro i k hi hk
      obtain ⟨v, hv, hl⟩ := h2 i k hi hk
      exact ⟨v, by rw [← hdropget]; exact hv, hl⟩
    by_cases he : r.FindAllStringSubmatch s = []
    · simp [he]
    · simpa [he] using hgen
  · rw [List.forall₂_map_right_iff, List.forall₂_same]
    intro m hm
    exact groupMap_of_injective (r.SubexpNames.drop 1) n hlen hinj
      (groupValues s m.2.2) (groupValues_length s n _ (hgroups m hm))

/-- Instance of C18: the test pattern `nonamerx` with the declared names
`["greeting", "", ""]` on `"hello, world!"`. -/
theorem injective_identifiers_witness :
    (∀ i j, i < 3 → j < 3 →
      getGroupName (nonamerx.SubexpNames.drop 1) i
        = getGroupName (nonamerx.SubexpNames.drop 1) j → i = j) ∧
    (∃ m, FindGroups nonamerx (str "hello, world!") = .ok (some m, true) ∧ m.len = 3 ∧
      ∀ i k, i < 3 → getGroupName (nonamerx.SubexpNames.drop 1) i = .ok k →
        ∃ v, (nonamerx.FindStringSubmatch (str "hello, world!"))[i + 1]? = some v ∧
          m.lookup k = some v) :=
  ⟨(injective_identifiers nonamerx (str "hello, world!") replaceNameGreeting 3
      [(0, 13, [0, 5, 7, 12, 12, 13])] (by decide) (by decide) (by decide) (by decide)
      (by decide) (by decide) (by decide) (by decide) (by decide) (by decide)).1,
   (injective_identifiers nonamerx (str "hello, world!") replaceNameGreeting 3
      [(0, 13, [0, 5, 7, 12, 12, 13])] (by decide) (by decide) (by decide) (by decide)
      (by decide) (by decide) (by decide) (by decide) (by decide) (by decide)).2.1⟩

end Rx
